import Mathlib

/-!
# Verification of the TSOD realtime voice/chat platform core

A shallow embedding, in Lean 4, of the server-side components of the TSOD
repository, together with theorems settling the specification claims about
them.  Each definition is translated from the Rust source file named in its
doc comment; machine integers are modelled as `Nat` (with explicit `% 2^w`
where wrapping matters), fallible code returns `Option`/`Except`, and stateful
code is written as explicit state passing.

Components modelled:
* control-plane permissions (`src/server/control/src/repo.rs`,
  `src/server/control/src/service.rs`)
* control-service `join_channel` transaction (`service.rs`)
* gateway push hub (`src/server/gateway/src/state.rs`)
* outbox dispatcher record handling (`src/server/gateway/src/outbox_dispatch.rs`)
* gateway request loop dispatch (`src/server/gateway/src/gateway.rs`)
* control-stream varint framing (`src/server/gateway/src/frame.rs`)
* voice forwarder pipeline (`src/server/media/voice_forwarder.rs`)
-/

/-! ## Identifiers

The source uses 128-bit UUIDs (`src/server/control/src/ids.rs`).  Only
equality of identifiers is ever used by the modelled code, so identifiers are
modelled as naturals. -/

abbrev ServerId := Nat
abbrev UserId := Nat
abbrev ChannelId := Nat
abbrev MessageId := Nat

/-! ## Control-plane error taxonomy

From `src/server/control/src/errors.rs` extended with the kinds used by
`service.rs` (`ResourceExhausted`, `Conflict`, `Internal`); each kind carries
its static message string. -/

inductive ControlError where
  | notFound (msg : String)
  | alreadyExists (msg : String)
  | permissionDenied (msg : String)
  | invalidArgument (msg : String)
  | failedPrecondition (msg : String)
  | resourceExhausted (msg : String)
  | conflict (msg : String)
  | internalError (msg : String)
deriving DecidableEq, Repr

/-! ## Permissions

From `src/server/control/src/perms.rs` (the `Capability` enum) and the
Postgres-backed decision procedure `PgControlRepo::decide_permission` in
`src/server/control/src/repo.rs` lines 247-318.  The three tables consulted
by the SQL queries (`channel_overrides`, `user_roles`, `role_caps`) are
modelled as lists of rows; `fetch_optional` of a `SELECT 1 ... LIMIT 1`
becomes a `List.any` existence test. -/

inductive Capability where
  | joinChannel
  | speak
  | stream
  | upload
  | createChannel
  | manageChannel
  | moderateMembers
  | manageRoles
deriving DecidableEq, Repr

/-- `Capability::as_str` (used by `decide_permission` to compare against the
`cap` column).  Its body is not under `src/`; any injective naming works, the
canonical snake_case names are used. -/
def Capability.as_str : Capability → String
  | .joinChannel => "join_channel"
  | .speak => "speak"
  | .stream => "stream"
  | .upload => "upload"
  | .createChannel => "create_channel"
  | .manageChannel => "manage_channel"
  | .moderateMembers => "moderate_members"
  | .manageRoles => "manage_roles"

inductive PermissionDecision where
  | allow
  | deny
deriving DecidableEq, Repr

/-- A row of the `channel_overrides` table. -/
structure ChannelOverrideRow where
  channel_id : ChannelId
  user_id : UserId
  cap : String
  effect : String
deriving DecidableEq, Repr

/-- A row of the `user_roles` table. -/
structure UserRoleRow where
  server_id : ServerId
  user_id : UserId
  role_id : String
deriving DecidableEq, Repr

/-- A row of the `role_caps` table. -/
structure RoleCapRow where
  role_id : String
  cap : String
  effect : String
deriving DecidableEq, Repr

/-- The permission tables queried by `decide_permission`. -/
structure PermDb where
  channel_overrides : List ChannelOverrideRow
  user_roles : List UserRoleRow
  role_caps : List RoleCapRow
deriving DecidableEq, Repr

/-- `PgControlRepo::decide_permission` (`repo.rs` lines 247-318).

The four queries run in source order: (1) channel-override deny, (2) role
deny (join of `user_roles` with `role_caps`), (3) channel-override grant,
(4) role grant; the default is `Deny`.  Note the signature: the function
receives `(server, channel, user, cap)` only — it has no `is_admin` input. -/
def decide_permission (db : PermDb) (server : ServerId) (channel : Option ChannelId)
    (user : UserId) (cap : Capability) : PermissionDecision :=
  let cap_s := cap.as_str
  let channelEffect : String → Bool := fun eff =>
    match channel with
    | some ch => db.channel_overrides.any fun r =>
        r.channel_id == ch && r.user_id == user && r.cap == cap_s && r.effect == eff
    | none => false
  let roleEffect : String → Bool := fun eff =>
    db.user_roles.any fun ur =>
      ur.server_id == server && ur.user_id == user &&
        db.role_caps.any fun rc =>
          rc.role_id == ur.role_id && rc.cap == cap_s && rc.effect == eff
  if channelEffect "deny" then .deny
  else if roleEffect "deny" then .deny
  else if channelEffect "grant" then .allow
  else if roleEffect "grant" then .allow
  else .deny

/-- `RequestContext` from `src/server/control/src/service.rs` lines 16-21. -/
structure RequestContext where
  server_id : ServerId
  user_id : UserId
  is_admin : Bool
deriving DecidableEq, Repr

/-- `PermissionRequest` from `src/server/control/src/model.rs` lines 135-143:
the request record `ControlService::require` builds, carrying `is_admin`. -/
structure PermissionRequest where
  server_id : ServerId
  user_id : UserId
  is_admin : Bool
  capability : Capability
  channel_id : Option ChannelId
  target_user_id : Option UserId
deriving DecidableEq, Repr

/-- `ControlService::require` (`service.rs` lines 406-427).  It builds a
`PermissionRequest` carrying `ctx.is_admin` and forwards to the repository's
`decide_permission`, whose implementation consumes only
`(server, channel, user, cap)` — the `is_admin` field never reaches the
decision. -/
def require (db : PermDb) (ctx : RequestContext) (channel_id : Option ChannelId)
    (target_user_id : Option UserId) (capability : Capability) :
    Except ControlError Unit :=
  let req : PermissionRequest :=
    { server_id := ctx.server_id
      user_id := ctx.user_id
      is_admin := ctx.is_admin
      capability := capability
      channel_id := channel_id
      target_user_id := target_user_id }
  match decide_permission db req.server_id req.channel_id req.user_id req.capability with
  | .allow => .ok ()
  | .deny => .error (.permissionDenied "permission denied")

/-! ## Control-plane data model

From `src/server/control/src/model.rs`.  Timestamps (`DateTime<Utc>`) are
modelled as milliseconds (`Nat`); randomly generated UUIDs (`Uuid::new_v4`)
carry no information used by the modelled logic and are omitted from the
records that receive them. -/

/-- Rust `char::is_whitespace`: true exactly on the Unicode `White_Space`
code points. -/
def char_is_whitespace (c : Char) : Bool :=
  c.toNat ∈ [0x09, 0x0A, 0x0B, 0x0C, 0x0D, 0x20, 0x85, 0xA0, 0x1680,
    0x2000, 0x2001, 0x2002, 0x2003, 0x2004, 0x2005, 0x2006, 0x2007, 0x2008,
    0x2009, 0x200A, 0x2028, 0x2029, 0x202F, 0x205F, 0x3000]

/-- Rust `str::trim`: remove leading and trailing whitespace characters. -/
def str_trim (s : String) : String :=
  ⟨((s.data.dropWhile char_is_whitespace).reverse.dropWhile char_is_whitespace).reverse⟩

/-- `Channel` (`model.rs` lines 11-21).  `max_members`/`max_talkers` are
`Option<i32>` in the source, modelled as `Option Int`. -/
structure Channel where
  id : ChannelId
  server_id : ServerId
  name : String
  parent_id : Option ChannelId
  max_members : Option Int
  max_talkers : Option Int
  created_at : Nat
  updated_at : Nat
deriving DecidableEq, Repr

/-- `Member` (`model.rs` lines 50-58). -/
structure Member where
  channel_id : ChannelId
  user_id : UserId
  display_name : String
  muted : Bool
  deafened : Bool
  joined_at : Nat
deriving DecidableEq, Repr

/-- `JoinChannel` request (`model.rs` lines 43-47). -/
structure JoinChannel where
  channel_id : ChannelId
  display_name : String
deriving DecidableEq, Repr

/-- The JSON payload of an outbox event, restricted to the fields the
service writes and the dispatcher reads (`service.rs` / `outbox_dispatch.rs`). -/
structure OutboxPayload where
  channel_id : Option ChannelId := none
  user_id : Option UserId := none
  display_name : Option String := none
  muted : Option Bool := none
  deafened : Option Bool := none
  message_id : Option MessageId := none
  author_user_id : Option UserId := none
  text : Option String := none
  target_user_id : Option UserId := none
  actor_user_id : Option UserId := none
deriving DecidableEq, Repr

/-- `OutboxEvent` (`model.rs` lines 82-88), minus the random `OutboxId`. -/
structure OutboxEvent where
  server_id : ServerId
  topic : String
  payload_json : OutboxPayload
deriving DecidableEq, Repr

/-- `AuditEntry` (`model.rs` lines 100-110), minus the random id and the
free-form JSON context. -/
structure AuditEntry where
  server_id : ServerId
  actor_user_id : Option UserId
  action : String
  target_type : String
  target_id : ChannelId
deriving DecidableEq, Repr

/-- The durable state owned by the control repository: the tables touched by
the modelled service operations. -/
structure ControlState where
  channels : List Channel
  members : List Member
  outbox : List OutboxEvent
  audit : List AuditEntry
  perms : PermDb
deriving DecidableEq, Repr

/-- `get_channel` (`repo.rs` lines 124-144): `SELECT ... WHERE server_id=$1
AND id=$2`, `fetch_optional`. -/
def get_channel (st : ControlState) (server : ServerId) (id : ChannelId) :
    Option Channel :=
  st.channels.find? fun c => c.server_id == server && c.id == id

/-- `count_members` (`repo.rs` lines 170-175): `SELECT COUNT(*) FROM
channel_members WHERE channel_id=$1` (the query filters by channel only). -/
def count_members (st : ControlState) (channel : ChannelId) : Int :=
  ((st.members.filter fun m => m.channel_id == channel).length : Int)

/-- `upsert_member` (`repo.rs` lines 177-195): insert, or on conflict of
`(channel_id, user_id)` update `display_name`, `muted`, `deafened` while
preserving `joined_at`. -/
def upsert_member (st : ControlState) (m : Member) : ControlState :=
  if st.members.any fun x => x.channel_id == m.channel_id && x.user_id == m.user_id then
    { st with members := st.members.map fun x =>
        if x.channel_id == m.channel_id && x.user_id == m.user_id then
          { x with display_name := m.display_name, muted := m.muted, deafened := m.deafened }
        else x }
  else
    { st with members := st.members ++ [m] }

/-- Insertion into a list sorted by `joined_at` (ascending), used to model
the `ORDER BY joined_at ASC` of `list_members`. -/
def insertByJoinedAt (m : Member) : List Member → List Member
  | [] => [m]
  | x :: xs =>
      if m.joined_at ≤ x.joined_at then m :: x :: xs
      else x :: insertByJoinedAt m xs

/-- `list_members` (`repo.rs` lines 207-226): rows of the channel, ordered
by `joined_at` ascending. -/
def list_members (st : ControlState) (channel : ChannelId) : List Member :=
  (st.members.filter fun m => m.channel_id == channel).foldr insertByJoinedAt []

/-- `insert_outbox` (`repo.rs` lines 424-441): plain insert. -/
def insert_outbox (st : ControlState) (ev : OutboxEvent) : ControlState :=
  { st with outbox := st.outbox ++ [ev] }

/-- `insert_audit` (`repo.rs` lines 443-462): plain insert. -/
def insert_audit (st : ControlState) (e : AuditEntry) : ControlState :=
  { st with audit := st.audit ++ [e] }

/-- `ControlService::join_channel` (`service.rs` lines 119-190), as one
transaction over `ControlState`:

1. trim/validate the display name;
2. permission gate via `require` (capability `JoinChannel`);
3. channel lookup, else `NotFound("channel")`;
4. if `max_members` is set, count members and return
   `ResourceExhausted("channel full")` when `count ≥ max`;
5. upsert the member, append the audit entry and the
   `presence.member_joined` outbox event, list the members, commit.

An `.error` result corresponds to a transaction rollback: the returned state
in the `.ok` case is the committed state.  `now` stands for `Utc::now()`.
String length is the source's byte length (`str::len`). -/
def join_channel (st : ControlState) (ctx : RequestContext) (req : JoinChannel)
    (now : Nat) : Except ControlError (ControlState × List Member) := do
  let dn := str_trim req.display_name
  if dn.data.isEmpty then
    throw (.invalidArgument "display name empty")
  if dn.utf8ByteSize > 64 then
    throw (.invalidArgument "display name too long")
  let () ← require st.perms ctx (some req.channel_id) none .joinChannel
  let some ch := get_channel st ctx.server_id req.channel_id
    | throw (.notFound "channel")
  if let some mx := ch.max_members then
    if count_members st req.channel_id ≥ mx then
      throw (.resourceExhausted "channel full")
  let m : Member :=
    { channel_id := req.channel_id
      user_id := ctx.user_id
      display_name := dn
      muted := false
      deafened := false
      joined_at := now }
  let st := upsert_member st m
  let st := insert_audit st
    { server_id := ctx.server_id
      actor_user_id := some ctx.user_id
      action := "member.join"
      target_type := "channel"
      target_id := req.channel_id }
  let st := insert_outbox st
    { server_id := ctx.server_id
      topic := "presence.member_joined"
      payload_json :=
        { channel_id := some req.channel_id
          user_id := some ctx.user_id
          display_name := some m.display_name
          muted := some m.muted
          deafened := some m.deafened } }
  let members := list_members st req.channel_id
  pure (st, members)

/-- The durable state after a `join_channel` call: the transaction commits
only on success (`tx.commit()` is the last step of the `Ok` path); every
error path drops the transaction, rolling all writes back. -/
def join_channel_durable (st : ControlState) (ctx : RequestContext)
    (req : JoinChannel) (now : Nat) : ControlState :=
  match join_channel st ctx req now with
  | .ok (st', _) => st'
  | .error _ => st

/-! ## Claim C1 — admin bypass in `decide_permission` -/

/-- C1 (code bug): the specification states that `decide_permission` returns
`Allow` for `is_admin = true` contexts unconditionally, without consulting the
channel-override or role tables.  The implementation (`repo.rs` lines
247-318) never receives nor reads `is_admin`: at the failing input — an
admin context together with empty `channel_overrides`/`user_roles`/`role_caps`
tables — the decision falls through all four table queries to the default and
the service's `require` gate turns it into `PermissionDenied`, even though
`ctx.is_admin = true`. -/
theorem decide_permission_denies_admin_with_empty_tables :
    let db : PermDb := { channel_overrides := [], user_roles := [], role_caps := [] }
    let ctx : RequestContext := { server_id := 1, user_id := 2, is_admin := true }
    ctx.is_admin = true ∧
      decide_permission db ctx.server_id (some 3) ctx.user_id .joinChannel = .deny ∧
      require db ctx (some 3) none .joinChannel =
        .error (.permissionDenied "permission denied") := by
  refine ⟨rfl, rfl, rfl⟩

/-! ## Claim C2 — `join_channel` capacity check -/

/-- C2: if the target channel has `max_members` set and the current member
count is at least that bound, `join_channel` returns
`ResourceExhausted("channel full")` and the durable state is unchanged — in
particular no member row is inserted and no outbox event is created.  The
hypotheses state that the call reaches the capacity check: the display name
passes validation and the permission gate allows the join. -/
theorem join_channel_full (st : ControlState) (ctx : RequestContext)
    (req : JoinChannel) (now : Nat) (ch : Channel) (mx : Int)
    (hdn1 : (str_trim req.display_name).data.isEmpty = false)
    (hdn2 : (str_trim req.display_name).utf8ByteSize ≤ 64)
    (hperm : decide_permission st.perms ctx.server_id (some req.channel_id)
        ctx.user_id .joinChannel = .allow)
    (hch : get_channel st ctx.server_id req.channel_id = some ch)
    (hmx : ch.max_members = some mx)
    (hfull : mx ≤ count_members st req.channel_id) :
    join_channel st ctx req now = .error (.resourceExhausted "channel full") ∧
      join_channel_durable st ctx req now = st ∧
      (join_channel_durable st ctx req now).members = st.members ∧
      (join_channel_durable st ctx req now).outbox = st.outbox := by
  have hres : join_channel st ctx req now = .error (.resourceExhausted "channel full") := by
    simp only [join_channel, require, hperm, hdn1, Bool.false_eq_true, if_false, hch, hmx]
    simp only [hdn2, Nat.not_lt.mpr hdn2, if_false, decide_False, Bool.false_eq_true,
      ge_iff_le, hfull, if_true, decide_True]
    rfl
  refine ⟨hres, ?_, ?_, ?_⟩ <;> simp [join_channel_durable, hres]

/-- Witness for `join_channel_full`: a channel with `max_members = 1` that
already holds one member; the joining user holds a role grant for
`join_channel`, so the call reaches the capacity check and fails there. -/
theorem join_channel_full_witness :
    let ch : Channel :=
      { id := 5, server_id := 1, name := "general", parent_id := none,
        max_members := some 1, max_talkers := some 4, created_at := 0, updated_at := 0 }
    let existing : Member :=
      { channel_id := 5, user_id := 9, display_name := "bob", muted := false,
        deafened := false, joined_at := 0 }
    let st : ControlState :=
      { channels := [ch], members := [existing], outbox := [], audit := [],
        perms := { channel_overrides := [],
                   user_roles := [{ server_id := 1, user_id := 7, role_id := "member" }],
                   role_caps := [{ role_id := "member", cap := "join_channel",
                                   effect := "grant" }] } }
    let ctx : RequestContext := { server_id := 1, user_id := 7, is_admin := false }
    let req : JoinChannel := { channel_id := 5, display_name := "alice" }
    join_channel st ctx req 100 = .error (.resourceExhausted "channel full") ∧
      join_channel_durable st ctx req 100 = st := by
  intro ch existing st ctx req
  have h := join_channel_full st ctx req 100 ch 1
    (by decide) (by decide) (by decide) (by decide) (by decide) (by decide)
  exact ⟨h.1, h.2.1⟩

/-! ## Gateway push hub

From `src/server/gateway/src/state.rs` lines 51-80.  The hub maps a user id
to the bounded `mpsc` sender feeding that user's control-stream writer task.
A tokio bounded mpsc channel is modelled as a capacity plus a FIFO list of
queued messages (front = oldest); `try_send` appends when there is room and
otherwise fails without modifying the queue. -/

/-- A push envelope; its contents are opaque to the hub. -/
abbrev PushMsg := Nat

/-- The queue behind one user's `mpsc::Sender<ServerToClient>`. -/
structure PushQueue where
  capacity : Nat
  items : List PushMsg
deriving DecidableEq, Repr

/-- `tokio::sync::mpsc::Sender::try_send`: enqueue at the back when the
queue holds fewer than `capacity` messages, otherwise return
`TrySendError::Full` leaving the queue untouched. -/
def PushQueue.try_send (q : PushQueue) (msg : PushMsg) : Bool × PushQueue :=
  if q.items.length < q.capacity then (true, { q with items := q.items ++ [msg] })
  else (false, q)

/-- The writer task's `rx.recv()`: pop the oldest queued message. -/
def PushQueue.recv (q : PushQueue) : Option (PushMsg × PushQueue) :=
  match q.items with
  | [] => none
  | m :: rest => some (m, { q with items := rest })

/-- The hub's user → sender map. -/
abbrev PushHub := List (UserId × PushQueue)

def pushHubUpdate (hub : PushHub) (user : UserId) (q : PushQueue) : PushHub :=
  hub.map fun p => if p.1 == user then (user, q) else p

/-- `PushHub::send_to` (`state.rs` lines 71-79): look the user up; when
registered, `let _ = tx.try_send(msg)` — the result is discarded, so a full
queue silently drops the newly offered message. -/
def send_to (hub : PushHub) (user : UserId) (msg : PushMsg) : PushHub :=
  match hub.lookup user with
  | some q => pushHubUpdate hub user (q.try_send msg).2
  | none => hub

/-- Offering a sequence of pushes to one queue, in order. -/
def PushQueue.sendAll (q : PushQueue) (msgs : List PushMsg) : PushQueue :=
  msgs.foldl (fun acc m => (acc.try_send m).2) q

/-! ## Claim C6 — push queue backpressure policy -/

/-- C6 counterexample: a full queue (capacity 2 holding `[1, 2]`).  Offering
push `3` leaves the queue at `[1, 2]`: the *newly offered* push is the one
discarded.  The claim's drop-oldest policy would instead produce `[2, 3]`. -/
theorem send_to_full_queue_drops_new_push :
    let hub : PushHub := [(7, { capacity := 2, items := [1, 2] })]
    send_to hub 7 3 = [(7, { capacity := 2, items := [1, 2] })] ∧
      ¬ (send_to hub 7 3 = [(7, { capacity := 2, items := [2, 3] })]) := by
  exact ⟨by decide, by decide⟩

/-- C6 as amended: delivery is FIFO and the dispatcher never blocks, but on a
full queue the *newly offered* push is discarded and the queued pushes are
untouched.  Formally: after offering any sequence `msgs` to a queue, the
queue holds its previous items (the oldest is never evicted) followed by an
order-preserving subsequence of `msgs` (FIFO admission, no reordering), with
the capacity unchanged. -/
theorem sendAll_items_sublist (q : PushQueue) (msgs : List PushMsg) :
    ∃ s : List PushMsg, s.Sublist msgs ∧
      (q.sendAll msgs).items = q.items ++ s ∧
      (q.sendAll msgs).capacity = q.capacity := by
  induction msgs generalizing q with
  | nil => exact ⟨[], List.Sublist.refl [], by simp [PushQueue.sendAll], rfl⟩
  | cons m rest ih =>
    by_cases h : q.items.length < q.capacity
    · obtain ⟨s, hs, hitems, hcap⟩ := ih { q with items := q.items ++ [m] }
      refine ⟨m :: s, hs.cons₂ m, ?_, ?_⟩
      · simpa [PushQueue.sendAll, PushQueue.try_send, h, List.append_assoc] using hitems
      · simpa [PushQueue.sendAll, PushQueue.try_send, h] using hcap
    · obtain ⟨s, hs, hitems, hcap⟩ := ih q
      refine ⟨s, hs.cons m, ?_, ?_⟩
      · simpa [PushQueue.sendAll, PushQueue.try_send, h] using hitems
      · simpa [PushQueue.sendAll, PushQueue.try_send, h] using hcap

/-! ## Control envelope shapes

The protobuf envelope (`proto/voiceplatform/v1`), restricted to the shape the
claims concern: correlation id, error code, and which payload variant is
carried.  The inner payload contents are opaque here. -/

/-- Error codes surfaced to the client. -/
inductive ErrorCode where
  | ok
  | invalidArgument
  | notFound
  | alreadyExists
  | permissionDenied
  | failedPrecondition
  | resourceExhausted
  | unauthenticated
  | internalError
deriving DecidableEq, Repr

/-- The `ServerToClient` payload variants. -/
inductive StcPayloadKind where
  | helloAck
  | authResponse
  | pong
  | joinChannelResponse
  | leaveChannelResponse
  | presenceEvent
  | chatEvent
  | moderationEvent
deriving DecidableEq, Repr

/-- The shape of a `ServerToClient` envelope. -/
structure ServerToClientShape where
  request_id : Option Nat
  error : Option ErrorCode
  payload : Option StcPayloadKind
deriving DecidableEq, Repr

/-- `server_push` (`outbox_dispatch.rs` lines 340-348): a push envelope with
`request_id = 0` and no error. -/
def server_push (payload : StcPayloadKind) : ServerToClientShape :=
  { request_id := some 0, error := none, payload := some payload }

/-! ## Outbox dispatcher

From `src/server/gateway/src/outbox_dispatch.rs`.  The dispatcher's
per-record work (`handle_record`, lines 59-80) translates the claimed outbox
row into a typed push envelope, resolves recipients from the in-process
membership cache, applies cache side effects, enqueues the push to each
recipient, and acknowledges the row. -/

/-- An outbox row as the dispatcher receives it (`OutboxEventRow`), with the
JSON payload restricted to the fields the dispatcher reads. -/
structure OutboxRecordRow where
  topic : String
  payload_json : OutboxPayload
deriving DecidableEq, Repr

/-- `parse_channel_id_field` and friends (`outbox_dispatch.rs` lines
287-305): a missing field is an error (`anyhow!("missing field ...")`). -/
def parse_id_field (v : Option Nat) (field : String) : Except String Nat :=
  match v with
  | some x => .ok x
  | none => .error ("missing field " ++ field)

/-- `translate_record` (`outbox_dispatch.rs` lines 82-249): map the topic
string to a typed push envelope, extracting the channel id used for
recipient resolution.  Unsupported topics fail.  The envelope's inner fields
other than the variant are abstracted away. -/
def translate_record (rec : OutboxRecordRow) :
    Except String (ChannelId × ServerToClientShape) :=
  match rec.topic with
  | "presence.member_joined" => do
      let ch ← parse_id_field rec.payload_json.channel_id "channel_id"
      let _user ← parse_id_field rec.payload_json.user_id "user_id"
      pure (ch, server_push .presenceEvent)
  | "presence.member_left" => do
      let ch ← parse_id_field rec.payload_json.channel_id "channel_id"
      let _user ← parse_id_field rec.payload_json.user_id "user_id"
      pure (ch, server_push .presenceEvent)
  | "presence.voice_state_changed" => do
      let ch ← parse_id_field rec.payload_json.channel_id "channel_id"
      let _user ← parse_id_field rec.payload_json.user_id "user_id"
      pure (ch, server_push .presenceEvent)
  | "chat.message_posted" => do
      let ch ← parse_id_field rec.payload_json.channel_id "channel_id"
      let _mid ← parse_id_field rec.payload_json.message_id "message_id"
      let _author ← parse_id_field rec.payload_json.author_user_id "author_user_id"
      pure (ch, server_push .chatEvent)
  | "moderation.user_muted" => do
      let ch ← parse_id_field rec.payload_json.channel_id "channel_id"
      let _target ← parse_id_field rec.payload_json.target_user_id "target_user_id"
      let _actor ← parse_id_field rec.payload_json.actor_user_id "actor_user_id"
      pure (ch, server_push .moderationEvent)
  | other => .error ("unsupported outbox event type: " ++ other)

/-- The dispatcher's view of the membership cache: `channel_id → members`.

Modelled from the spec: the accessor `MembershipCache::members_of` called by
`handle_record` is absent from `src/` (only its callers are present); per the
spec the cache "maps `channel_id → {max_talkers, members: [user_id]}`" and is
a pure in-memory index (the `MembershipCache` struct in `state.rs` holds
only maps, no repository handle), so `members_of` is a map lookup returning
`none` on a channel with no cache entry. -/
def members_of (cache : List (ChannelId × List UserId)) (ch : ChannelId) :
    Option (List UserId) :=
  cache.lookup ch

/-- The outcome of `handle_record`: the resolved recipients, the pushes
enqueued (`hub.send` per recipient), and a log of the repository operations
performed, in order.  The source's only repository interaction is the final
`ack_outbox_published` inside its own short transaction. -/
structure HandleRecordResult where
  recipients : List UserId
  pushes : List (UserId × ServerToClientShape)
  repo_ops : List String
deriving DecidableEq, Repr

/-- `handle_record` (`outbox_dispatch.rs` lines 59-80):

1. `translate_record` (an error propagates: the row is not acknowledged);
2. `let recipients = membership.members_of(channel_id).unwrap_or_default()` —
   a cache miss yields the *empty* recipient set, with no repository lookup;
3. cache side effects (they follow the recipient read and cannot affect it);
4. `hub.send` to every recipient;
5. `ack_outbox_published` in a fresh transaction. -/
def handle_record (cache : List (ChannelId × List UserId)) (rec : OutboxRecordRow) :
    Except String HandleRecordResult := do
  let (channel_id, push) ← translate_record rec
  let recipients := (members_of cache channel_id).getD []
  pure { recipients := recipients
         pushes := recipients.map fun uid => (uid, push)
         repo_ops := ["ack_outbox_published"] }

/-! ## Claim C7 — dispatcher recipient resolution -/

/-- C7 counterexample: an outbox row for a channel with no membership-cache
entry.  `handle_record` resolves the empty recipient set and performs no
`list_members` repository call — the claimed one-shot fallback to the
repository does not exist (`handle_record`'s only repository operation is the
final acknowledgement). -/
theorem handle_record_cache_miss_no_fallback :
    let rec0 : OutboxRecordRow :=
      { topic := "presence.member_joined",
        payload_json := { channel_id := some 5, user_id := some 9 } }
    handle_record [] rec0 =
      .ok { recipients := [], pushes := [], repo_ops := ["ack_outbox_published"] } ∧
      ∀ r : HandleRecordResult, handle_record [] rec0 = .ok r →
        r.recipients = [] ∧ "list_members" ∉ r.repo_ops := by
  intro rec0
  have hval : handle_record [] rec0 =
      .ok { recipients := [], pushes := [], repo_ops := ["ack_outbox_published"] } := rfl
  refine ⟨hval, ?_⟩
  intro r hr
  rw [hval] at hr
  injection hr with h
  subst h
  exact ⟨rfl, by decide⟩

/-- C7 as amended: for every outbox record the dispatcher can translate, the
recipient set is exactly the membership cache's entry for the event's channel
— defaulting to the empty set on a cache miss — and no `list_members`
repository call is made (the only repository operation is the final
acknowledgement). -/
theorem handle_record_recipients_from_cache
    (cache : List (ChannelId × List UserId)) (rec : OutboxRecordRow)
    (ch : ChannelId) (push : ServerToClientShape)
    (htr : translate_record rec = .ok (ch, push)) :
    handle_record cache rec =
      .ok { recipients := (members_of cache ch).getD []
            pushes := ((members_of cache ch).getD []).map fun uid => (uid, push)
            repo_ops := ["ack_outbox_published"] } ∧
      ∀ r : HandleRecordResult, handle_record cache rec = .ok r →
        "list_members" ∉ r.repo_ops := by
  constructor
  · simp [handle_record, htr]
  · intro r hr
    simp [handle_record, htr] at hr
    simp [← hr]

/-- Witness for `handle_record_recipients_from_cache`: a populated cache
entry for channel 5. -/
theorem handle_record_recipients_from_cache_witness :
    translate_record
        { topic := "presence.member_left",
          payload_json := { channel_id := some 5, user_id := some 9 } } =
      .ok (5, server_push .presenceEvent) ∧
    handle_record [(5, [3, 4])]
        { topic := "presence.member_left",
          payload_json := { channel_id := some 5, user_id := some 9 } } =
      .ok { recipients := [3, 4],
            pushes := [(3, server_push .presenceEvent), (4, server_push .presenceEvent)],
            repo_ops := ["ack_outbox_published"] } := by
  refine ⟨rfl, ?_⟩
  exact (handle_record_recipients_from_cache [(5, [3, 4])]
    { topic := "presence.member_left",
      payload_json := { channel_id := some 5, user_id := some 9 } }
    5 (server_push .presenceEvent) rfl).1

/-! ## Gateway request loop

From `src/server/gateway/src/gateway.rs`, `handle_conn` lines 123-354: one
iteration of the READY-state request loop, dispatching on the envelope's
payload variant.  Service-call outcomes are supplied by an environment so the
dispatch skeleton can be studied for every outcome. -/

/-- The `ClientToServer` payload variants, with the fields the dispatch
reads.  Identifier fields arriving as protobuf strings that must parse as
UUIDs are modelled as `Option`: `none` stands for a missing or unparsable
field (`parse_channel_id` fails on either). -/
inductive CtsPayload where
  | hello
  | authRequest
  | ping (nonce : Nat)
  | joinChannelRequest (channel_id : Option ChannelId)
  | leaveChannelRequest (channel_id : Option ChannelId)
  | createChannelRequest (name : String) (parent : Option ChannelId)
  | sendMessageRequest (channel_id : Option ChannelId) (text : String)
  | moderationActionRequest (channel_id : Option ChannelId)
      (target_user_id : Option UserId) (mute : Option Bool)
deriving DecidableEq, Repr

/-- The shape of a `ClientToServer` envelope. -/
structure ClientToServerShape where
  request_id : Option Nat
  payload : Option CtsPayload
deriving DecidableEq, Repr

/-- Outcomes the environment can report for a control-service call. -/
structure GatewayEnv where
  join_channel_ok : ChannelId → Bool
  get_channel_ok : ChannelId → Bool
  leave_channel_ok : ChannelId → Bool
  create_channel_ok : String → Bool
  send_message_ok : ChannelId → Bool
  set_mute_ok : ChannelId → UserId → Bool

/-- What one request-loop iteration does. -/
inductive LoopStep where
  /-- a response envelope was written; the loop continues -/
  | wrote (resp : ServerToClientShape)
  /-- a `?` propagated an error out of `handle_conn`: the connection task
  ends without writing a response -/
  | connError
  /-- the catch-all `_ => {}` branch: no response, the loop continues -/
  | ignored
deriving DecidableEq, Repr

/-- One iteration of the request loop (`gateway.rs` lines 123-354).

* `Ping` is answered locally with a `Pong` echoing the request id.
* The five mutating requests call the control service; a service or parse
  error propagates via `?` (ending the connection task — no error envelope
  is written); on success a response echoing the request id is written.
* Any other payload — including an absent one — falls to the source's
  `_ => { // Ignore other messages for now. }` branch: nothing is written. -/
def requestLoopStep (env : GatewayEnv) (msg : ClientToServerShape) : LoopStep :=
  match msg.payload with
  | some (.ping _) =>
      .wrote { request_id := msg.request_id, error := none, payload := some .pong }
  | some (.joinChannelRequest ch?) =>
      match ch? with
      | none => .connError
      | some ch =>
          if env.join_channel_ok ch then
            if env.get_channel_ok ch then
              .wrote { request_id := msg.request_id, error := none,
                       payload := some .joinChannelResponse }
            else .connError
          else .connError
  | some (.leaveChannelRequest ch?) =>
      match ch? with
      | none => .connError
      | some ch =>
          if env.leave_channel_ok ch then
            .wrote { request_id := msg.request_id, error := none,
                     payload := some .leaveChannelResponse }
          else .connError
  | some (.createChannelRequest name _) =>
      if env.create_channel_ok name then
        .wrote { request_id := msg.request_id, error := none,
                 payload := some .joinChannelResponse }
      else .connError
  | some (.sendMessageRequest ch? _) =>
      match ch? with
      | none => .connError
      | some ch =>
          if env.send_message_ok ch then
            .wrote { request_id := msg.request_id, error := none, payload := none }
          else .connError
  | some (.moderationActionRequest ch? target? mute?) =>
      match ch? with
      | none => .connError
      | some ch =>
          match target? with
          | none => .connError
          | some target =>
              match mute? with
              | some _ =>
                  if env.set_mute_ok ch target then
                    .wrote { request_id := msg.request_id, error := none, payload := none }
                  else .connError
              | none =>
                  .wrote { request_id := msg.request_id, error := none, payload := none }
  | some .hello => .ignored
  | some .authRequest => .ignored
  | none => .ignored

/-- The supported request payloads of the READY-state loop. -/
def isSupportedRequestPayload : CtsPayload → Bool
  | .ping _ => true
  | .joinChannelRequest _ => true
  | .leaveChannelRequest _ => true
  | .createChannelRequest _ _ => true
  | .sendMessageRequest _ _ => true
  | .moderationActionRequest _ _ _ => true
  | .hello => false
  | .authRequest => false

/-! ## Claim C8 — unknown payloads -/

/-- C8 counterexample: an authenticated envelope carrying a `Hello` payload —
not one of the supported request payloads — is silently ignored by the
request loop's catch-all branch: no response is written at all, let alone one
carrying the `InvalidArgument` error code. -/
theorem unknown_payload_not_answered :
    let env : GatewayEnv :=
      { join_channel_ok := fun _ => true, get_channel_ok := fun _ => true,
        leave_channel_ok := fun _ => true, create_channel_ok := fun _ => true,
        send_message_ok := fun _ => true, set_mute_ok := fun _ _ => true }
    let msg : ClientToServerShape := { request_id := some 7, payload := some .hello }
    requestLoopStep env msg = .ignored ∧
      ¬ ∃ resp : ServerToClientShape, requestLoopStep env msg = .wrote resp ∧
        resp.error = some .invalidArgument := by
  intro env msg
  refine ⟨rfl, ?_⟩
  rintro ⟨resp, hresp, -⟩
  rw [show requestLoopStep env msg = .ignored from rfl] at hresp
  cases hresp

/-- C8 as amended: every envelope whose payload is not one of the supported
request payloads (`Ping`, `JoinChannelRequest`, `LeaveChannelRequest`,
`CreateChannelRequest`, `SendMessageRequest`, `ModerationActionRequest`) —
including an empty payload — is ignored: the gateway writes no response for
it and the loop continues. -/
theorem unknown_payload_ignored (env : GatewayEnv) (msg : ClientToServerShape)
    (hunk : ∀ p, msg.payload = some p → isSupportedRequestPayload p = false) :
    requestLoopStep env msg = .ignored := by
  match hmsg : msg.payload with
  | none => simp [requestLoopStep, hmsg]
  | some p =>
      have := hunk p hmsg
      cases p <;> simp_all [isSupportedRequestPayload, requestLoopStep, hmsg]

/-- Witness for `unknown_payload_ignored`: an envelope with no payload. -/
theorem unknown_payload_ignored_witness :
    requestLoopStep
      { join_channel_ok := fun _ => false, get_channel_ok := fun _ => false,
        leave_channel_ok := fun _ => false, create_channel_ok := fun _ => false,
        send_message_ok := fun _ => false, set_mute_ok := fun _ _ => false }
      { request_id := some 3, payload := none } = .ignored := by
  exact unknown_payload_ignored _ _ (by intro p hp; cases hp)

/-! ## Control-stream varint framing

From `src/server/gateway/src/frame.rs`.  The length prefix of every control
envelope is an LEB128 varint: 7 payload bits per byte, continuation bit
`0x80`.  Bytes are `Nat`s (< 256 whenever produced by the writer); the `u64`
accumulator's truncating shift is modelled with an explicit `% 2 ^ 64`. -/

/-- `write_varint_u64` (`frame.rs` lines 56-70): while `v ≥ 0x80`, emit
`(v as u8) | 0x80` and shift `v` right by 7; finally emit `v`. -/
def write_varint_u64 (v : Nat) : List Nat :=
  if _h : 0x80 ≤ v then (v % 256 ||| 0x80) :: write_varint_u64 (v >>> 7)
  else [v]
decreasing_by
  simp only [Nat.shiftRight_eq_div_pow]
  exact Nat.div_lt_self (by omega) (by norm_num)

/-- The loop of `read_varint_u64` (`frame.rs` lines 38-54): up to 10 bytes,
each contributing its low 7 bits at the current shift; stop on a byte with
the continuation bit clear; failing with `ProtocolError` (modelled as `none`)
when 10 bytes are exhausted or the stream ends. -/
def read_varint_loop : Nat → Nat → Nat → List Nat → Option (Nat × List Nat)
  | 0, _, _, _ => none
  | _ + 1, _, _, [] => none
  | fuel + 1, result, shift, byte :: rest =>
      let result := result ||| ((byte &&& 0x7f) <<< shift) % 2 ^ 64
      if byte &&& 0x80 == 0 then some (result, rest)
      else read_varint_loop fuel result (shift + 7) rest

/-- `read_varint_u64` (`frame.rs` lines 38-54). -/
def read_varint_u64 (bs : List Nat) : Option (Nat × List Nat) :=
  read_varint_loop 10 0 0 bs

/-- Bitwise-or with an even number keeps the low bit and recurses on the
halves. -/
theorem nat_or_two_mul (a z : Nat) : a ||| 2 * z = 2 * (a / 2 ||| z) + a % 2 := by
  have h1 : (a ||| 2 * z) / 2 = a / 2 ||| z := by
    rw [Nat.or_div_two]
    congr 1
    omega
  have h2 : (a ||| 2 * z) % 2 = a % 2 := by
    rcases Nat.mod_two_eq_zero_or_one a with h | h
    · have hne : ¬ ((a ||| 2 * z) % 2 = 1) := by
        intro hc
        rcases Nat.or_mod_two_eq_one.mp hc with h' | h' <;> omega
      omega
    · rw [h]
      exact Nat.or_mod_two_eq_one.mpr (Or.inl h)
  have h3 := Nat.div_add_mod (a ||| 2 * z) 2
  omega

/-- Or-ing disjoint bit ranges is addition: if `a` fits below bit `s`, then
`a ||| b * 2 ^ s = a + b * 2 ^ s`. -/
theorem nat_or_eq_add_of_lt (b : Nat) :
    ∀ s a : Nat, a < 2 ^ s → a ||| b * 2 ^ s = a + b * 2 ^ s := by
  intro s
  induction s with
  | zero =>
    intro a ha
    have : a = 0 := by omega
    subst this
    simp
  | succ s ih =>
    intro a ha
    have hpow : 2 ^ (s + 1) = 2 ^ s * 2 := Nat.pow_succ 2 s
    have hsplit : b * 2 ^ (s + 1) = 2 * (b * 2 ^ s) := by rw [hpow]; ring
    rw [hsplit, nat_or_two_mul, ih (a / 2) (by omega)]
    omega

/-- A continuation byte written by the encoder: `(v as u8) | 0x80` equals
`v % 128 + 128`. -/
theorem cont_byte_eq (v : Nat) : v % 256 ||| 0x80 = v % 128 + 128 := by
  have hb : v / 128 % 2 = 0 ∨ v / 128 % 2 = 1 := Nat.mod_two_eq_zero_or_one _
  have hsplit : v % 256 = v % 128 + 128 * (v / 128 % 2) := by omega
  have hlow : v % 128 ||| 1 * 2 ^ 7 = v % 128 + 1 * 2 ^ 7 :=
    nat_or_eq_add_of_lt 1 7 (v % 128) (by omega)
  rcases hb with h | h
  · rw [hsplit, h]
    simpa using hlow
  · have h128 : v % 256 = v % 128 + 128 := by omega
    rw [h128]
    have : v % 128 + 128 = v % 128 ||| 128 := by simpa using hlow.symm
    rw [this, Nat.or_assoc, Nat.or_self]

/-- The low seven bits of a continuation byte recover `v % 128`. -/
theorem cont_byte_and_7f (v : Nat) : (v % 256 ||| 0x80) &&& 0x7f = v % 128 := by
  rw [cont_byte_eq]
  have h127 : (0x7f : Nat) = 2 ^ 7 - 1 := by norm_num
  rw [h127, Nat.and_pow_two_sub_one_eq_mod]
  omega

/-- A continuation byte has its continuation bit set. -/
theorem cont_byte_and_80 (v : Nat) : (v % 256 ||| 0x80) &&& 0x80 = 0x80 := by
  rw [cont_byte_eq]
  have heq : v % 128 + 128 = v % 128 ||| 1 * 2 ^ 7 :=
    (nat_or_eq_add_of_lt 1 7 (v % 128) (by omega)).symm
  have h128 : (0x80 : Nat) = 2 ^ 7 := by norm_num
  rw [show v % 128 + 128 = v % 128 ||| 2 ^ 7 by simpa using heq, h128,
    Nat.and_distrib_right, Nat.and_self,
    Nat.and_two_pow, Nat.testBit_lt_two_pow (by omega)]
  simp

/-- A final byte (`v < 0x80`) passes through the 7-bit mask unchanged. -/
theorem last_byte_and_7f (v : Nat) (hv : v < 0x80) : v &&& 0x7f = v := by
  have h127 : (0x7f : Nat) = 2 ^ 7 - 1 := by norm_num
  rw [h127]
  exact Nat.and_pow_two_sub_one_of_lt_two_pow hv

/-- A final byte has its continuation bit clear. -/
theorem last_byte_and_80 (v : Nat) (hv : v < 0x80) : v &&& 0x80 = 0 := by
  have h128 : (0x80 : Nat) = 2 ^ 7 := by norm_num
  rw [h128, Nat.and_two_pow, Nat.testBit_lt_two_pow hv]
  simp

/-- The varint reader, fed the writer's output followed by anything, adds the
encoded value (shifted into place) to its accumulator and stops exactly at
the end of the encoding. -/
theorem read_varint_loop_write (v : Nat) :
    ∀ fuel acc shift rest,
      (write_varint_u64 v).length ≤ fuel →
      acc < 2 ^ shift →
      acc + v * 2 ^ shift < 2 ^ 64 →
      read_varint_loop fuel acc shift (write_varint_u64 v ++ rest) =
        some (acc + v * 2 ^ shift, rest) := by
  induction v using Nat.strong_induction_on with
  | _ v ih =>
    intro fuel acc shift rest hfuel hacc hbound
    by_cases hv : 0x80 ≤ v
    · rw [write_varint_u64] at hfuel ⊢
      simp only [hv, dite_true, List.length_cons] at hfuel ⊢
      obtain ⟨f, rfl⟩ : ∃ f, fuel = f + 1 := by
        cases fuel with
        | zero => omega
        | succ f => exact ⟨f, rfl⟩
      rw [List.cons_append, read_varint_loop]
      simp only [cont_byte_and_7f, cont_byte_and_80]
      have hmx : v % 128 * 2 ^ shift ≤ v * 2 ^ shift :=
        Nat.mul_le_mul_right _ (Nat.mod_le v 128)
      have hmod : ((v % 128) <<< shift) % 2 ^ 64 = (v % 128) * 2 ^ shift := by
        rw [Nat.shiftLeft_eq]
        exact Nat.mod_eq_of_lt (by omega)
      have hor : acc ||| (v % 128) * 2 ^ shift = acc + (v % 128) * 2 ^ shift :=
        nat_or_eq_add_of_lt (v % 128) shift acc hacc
      rw [hmod, hor]
      have hne : ((0x80 : Nat) == 0) = false := by decide
      simp only [hne, if_false]
      have hdiv : v >>> 7 = v / 128 := by
        rw [Nat.shiftRight_eq_div_pow]
      have hpow : 2 ^ (shift + 7) = 2 ^ shift * 128 := by
        rw [Nat.pow_add]
      have hvdm : v = 128 * (v / 128) + v % 128 := (Nat.div_add_mod v 128).symm
      have hvx : v * 2 ^ shift = v / 128 * (2 ^ shift * 128) + v % 128 * 2 ^ shift := by
        conv_lhs => rw [hvdm]
        ring
      have hacc2 : acc + v % 128 * 2 ^ shift < 2 ^ (shift + 7) := by
        have h1 : v % 128 * 2 ^ shift ≤ 127 * 2 ^ shift :=
          Nat.mul_le_mul_right _ (by omega)
        rw [hpow]
        omega
      have hbound2 :
          acc + v % 128 * 2 ^ shift + v >>> 7 * 2 ^ (shift + 7) < 2 ^ 64 := by
        rw [hdiv, hpow]
        rw [hvx] at hbound
        omega
      have happ := ih (v >>> 7) (by rw [hdiv]; omega) f
        (acc + v % 128 * 2 ^ shift) (shift + 7) rest (by omega) hacc2 hbound2
      rw [happ, hdiv, hpow]
      have hsum : acc + v % 128 * 2 ^ shift + v / 128 * (2 ^ shift * 128) =
          acc + v * 2 ^ shift := by
        rw [hvx]
        ring
      rw [hsum]
      simp
    · rw [write_varint_u64] at hfuel ⊢
      simp only [hv, dite_false, List.length_singleton] at hfuel ⊢
      obtain ⟨f, rfl⟩ : ∃ f, fuel = f + 1 := by
        cases fuel with
        | zero => omega
        | succ f => exact ⟨f, rfl⟩
      rw [List.cons_append, List.nil_append, read_varint_loop]
      have hv2 : v < 0x80 := by omega
      simp only [last_byte_and_7f v hv2, last_byte_and_80 v hv2]
      have hmod : (v <<< shift) % 2 ^ 64 = v * 2 ^ shift := by
        rw [Nat.shiftLeft_eq]
        exact Nat.mod_eq_of_lt (by omega)
      rw [hmod, nat_or_eq_add_of_lt v shift acc hacc]
      simp

/-- The writer emits at most `k + 1` bytes for values below `2 ^ (7 (k+1))`. -/
theorem write_varint_length (k : Nat) :
    ∀ v : Nat, v < 2 ^ (7 * k + 7) → (write_varint_u64 v).length ≤ k + 1 := by
  induction k with
  | zero =>
    intro v hv
    norm_num at hv
    rw [write_varint_u64]
    simp [show ¬(0x80 ≤ v) by omega]
  | succ k ih =>
    intro v hv
    rw [write_varint_u64]
    by_cases h : 0x80 ≤ v
    · simp only [h, dite_true, List.length_cons]
      have hdiv : v >>> 7 = v / 128 := by
        rw [Nat.shiftRight_eq_div_pow]
      have hlt : v / 128 < 2 ^ (7 * k + 7) := by
        rw [Nat.div_lt_iff_lt_mul (by norm_num)]
        calc v < 2 ^ (7 * (k + 1) + 7) := hv
        _ = 2 ^ (7 * k + 7) * 128 := by
            rw [show 7 * (k + 1) + 7 = (7 * k + 7) + 7 by ring, Nat.pow_add]
      have := ih (v >>> 7) (by rw [hdiv]; exact hlt)
      omega
    · simp [h]

/-! ## Claim C10 — varint round trip -/

/-- C10: for every `u64` value `v`, decoding the bytes produced by
`write_varint_u64` yields exactly `v` with the remaining stream untouched
(the LEB128 round trip is the identity), and the encoding occupies at most
10 bytes (so the reader's 10-byte limit and the writer's 10-byte buffer are
never exceeded). -/
theorem varint_round_trip (v : Nat) (rest : List Nat) (hv : v < 2 ^ 64) :
    read_varint_u64 (write_varint_u64 v ++ rest) = some (v, rest) ∧
      (write_varint_u64 v).length ≤ 10 := by
  have hlen : (write_varint_u64 v).length ≤ 10 := by
    have h64 : v < 2 ^ (7 * 9 + 7) := lt_of_lt_of_le hv (by norm_num)
    exact write_varint_length 9 v h64
  refine ⟨?_, hlen⟩
  have h := read_varint_loop_write v 10 0 0 rest hlen (by norm_num)
    (by simpa using hv)
  simpa [read_varint_u64] using h

/-- Witness for `varint_round_trip` at `v = 300` (a two-byte encoding) and a
nonempty trailing stream. -/
theorem varint_round_trip_witness :
    (300 : Nat) < 2 ^ 64 ∧
      read_varint_u64 (write_varint_u64 300 ++ [9]) = some (300, [9]) ∧
      (write_varint_u64 300).length ≤ 10 := by
  exact ⟨by norm_num, varint_round_trip 300 [9] (by norm_num)⟩

/-! ## Voice forwarder

From `src/server/media/voice_forwarder.rs`.  Datagrams are byte lists;
`Instant`s and wall-clock times are milliseconds (`Nat`).  The forwarder's
three `RwLock<HashMap<..>>` maps are association lists (`updateAssoc`
replaces in place or appends).  `Duration::as_secs_f32` arithmetic inside
`RateState::refill` is modelled as exact millisecond arithmetic with
truncating division, `(elapsed_ms * rate) / 1000`, matching the source's
truncating `as u32` cast. -/

/-- In-place update (or append) for an association list, the model of
`HashMap::insert` / the map-entry API. -/
def updateAssoc {α β : Type} [BEq α] (l : List (α × β)) (k : α) (v : β) :
    List (α × β) :=
  if l.any (·.1 == k) then l.map fun p => bif p.1 == k then (k, v) else p
  else l ++ [(k, v)]

theorem lookup_updateAssoc_self {β : Type} (l : List (Nat × β)) (k : Nat) (v : β) :
    (updateAssoc l k v).lookup k = some v := by
  unfold updateAssoc
  split
  · rename_i hany
    induction l with
    | nil => simp at hany
    | cons p rest ih =>
      cases hpk : p.1 == k with
      | true => simp [List.lookup, hpk]
      | false =>
        have hrest : rest.any (·.1 == k) = true := by
          simp only [List.any_cons, hpk, Bool.false_or] at hany
          exact hany
        simp only [List.map_cons, Bool.cond_eq_if, hpk, if_false, List.lookup]
        rw [show (k == p.1) = false by simp_all [BEq.comm]]
        simpa [Bool.cond_eq_if] using ih hrest
  · induction l with
    | nil => simp [List.lookup]
    | cons p rest ih =>
      rename_i hany
      have h1 : (p.1 == k) = false := by
        by_contra h
        simp_all
      have h2 : ¬ (rest.any (·.1 == k) = true) := by
        intro h
        simp_all
      simp only [List.cons_append, List.lookup]
      rw [show (k == p.1) = false by simp_all [BEq.comm]]
      exact ih h2

theorem lookup_map_replace {β : Type} (l : List (Nat × β)) (k k' : Nat) (v : β)
    (h : (k' == k) = false) :
    (l.map fun p => bif p.1 == k then (k, v) else p).lookup k' = l.lookup k' := by
  induction l with
  | nil => simp
  | cons p rest ih =>
    cases hpk : p.1 == k with
    | true =>
      have hpeq : p.1 = k := by simpa using hpk
      have hk'p : (k' == p.1) = false := by simp [hpeq]; simpa using h
      simp only [List.map_cons, hpk, Bool.cond_true, List.lookup, h, hk'p]
      exact ih
    | false =>
      simp only [List.map_cons, hpk, Bool.cond_false, List.lookup]
      cases hk : k' == p.1
      · exact ih
      · rfl

theorem lookup_append_single {β : Type} (l : List (Nat × β)) (k k' : Nat) (v : β)
    (h : (k' == k) = false) :
    (l ++ [(k, v)]).lookup k' = l.lookup k' := by
  induction l with
  | nil => simp [List.lookup, h]
  | cons p rest ih =>
    simp only [List.cons_append, List.lookup]
    cases hk : k' == p.1
    · exact ih
    · rfl

theorem lookup_updateAssoc_other {β : Type} (l : List (Nat × β)) (k k' : Nat) (v : β)
    (h : (k' == k) = false) :
    (updateAssoc l k v).lookup k' = l.lookup k' := by
  unfold updateAssoc
  split
  · exact lookup_map_replace l k k' v h
  · exact lookup_append_single l k k' v h

/-- `VoiceForwarderConfig` (`voice_forwarder.rs` lines 97-115); durations in
milliseconds. -/
structure VoiceForwarderConfig where
  max_datagram_bytes : Nat
  min_datagram_bytes : Nat
  sender_pps_limit : Nat
  sender_bps_limit : Nat
  per_receiver_queue : Nat
  talker_activity_window : Nat
  max_ts_skew_ms : Nat
  vad_required_for_talker : Bool
deriving DecidableEq, Repr

/-- The `Default` impl (`voice_forwarder.rs` lines 117-130). -/
def VoiceForwarderConfig.default : VoiceForwarderConfig :=
  { max_datagram_bytes := 1500
    min_datagram_bytes := 20
    sender_pps_limit := 200
    sender_bps_limit := 512 * 1024
    per_receiver_queue := 256
    talker_activity_window := 800
    max_ts_skew_ms := 2000
    vad_required_for_talker := false }

/-- Big-endian `u32` from four bytes. -/
def u32_be (a b c d : Nat) : Nat := ((a * 256 + b) * 256 + c) * 256 + d

/-- Parsed voice packet header (`voice_forwarder.rs` lines 311-321). -/
structure VoicePacket where
  version : Nat
  flags : Nat
  header_len : Nat
  channel_route : Nat
  ssrc : Nat
  seq : Nat
  ts_ms : Nat
  vad : Bool
deriving DecidableEq, Repr

/-- `VoicePacket::parse` (`voice_forwarder.rs` lines 324-354): fail on
length < 20, version ≠ 1 or header_len ≠ 20; read the big-endian fields;
`vad` is flag bit 0.  Note: the reserved flag bits (2..7) are read but never
validated. -/
def VoicePacket.parse (b : List Nat) : Option VoicePacket :=
  if b.length < 20 then none
  else
    let version := b.getD 0 0
    if version ≠ 1 then none
    else
      let flags := b.getD 1 0
      let header_len := (b.getD 2 0) * 256 + b.getD 3 0
      if header_len ≠ 20 then none
      else
        let channel_route := u32_be (b.getD 4 0) (b.getD 5 0) (b.getD 6 0) (b.getD 7 0)
        let ssrc := u32_be (b.getD 8 0) (b.getD 9 0) (b.getD 10 0) (b.getD 11 0)
        let seq := u32_be (b.getD 12 0) (b.getD 13 0) (b.getD 14 0) (b.getD 15 0)
        let ts_ms := u32_be (b.getD 16 0) (b.getD 17 0) (b.getD 18 0) (b.getD 19 0)
        some { version := version, flags := flags, header_len := header_len,
               channel_route := channel_route, ssrc := ssrc, seq := seq,
               ts_ms := ts_ms, vad := flags &&& 1 ≠ 0 }

/-- `VoicePacket::ts_sane` (`voice_forwarder.rs` lines 356-362): the low 32
bits of wall-clock `now` minus `ts_ms` with `u32` wrap; accept when the
difference — in either wrap direction — is within the skew ceiling. -/
def VoicePacket.ts_sane (p : VoicePacket) (max_skew_ms : Nat) (now_unix_ms : Nat) :
    Bool :=
  let now := now_unix_ms % 2 ^ 32
  let diff := (now + 2 ^ 32 - p.ts_ms % 2 ^ 32) % 2 ^ 32
  decide (diff ≤ max_skew_ms) || decide (2 ^ 32 - 1 - diff ≤ max_skew_ms)

/-- `RateState` (`voice_forwarder.rs` lines 365-373): per-sender token
bucket state.  `last` is the `Instant` of the last refill, in ms. -/
structure RateState where
  last : Nat
  tokens_pkts : Nat
  tokens_bytes : Nat
  last_ts_ms : Option Nat
deriving DecidableEq, Repr

/-- `RateState::new` (`voice_forwarder.rs` lines 376-383): created with
**zero** tokens in both buckets, `last = Instant::now()`. -/
def RateState.new (now : Nat) : RateState :=
  { last := now, tokens_pkts := 0, tokens_bytes := 0, last_ts_ms := none }

/-- `RateState::refill` (`voice_forwarder.rs` lines 385-401): no-op when
less than 10 ms elapsed since `last` (and `last` is then *not* advanced);
otherwise add tokens proportional to the elapsed time at the **hardcoded**
rates 200 packets/s and 512 000 bytes/s (the configured
`sender_pps_limit`/`sender_bps_limit` are not consulted), cap each bucket at
one second of quota, and advance `last`. -/
def RateState.refill (st : RateState) (now : Nat) : RateState :=
  let elapsed := now - st.last
  if elapsed < 10 then st
  else
    let add_pkts := elapsed * 200 / 1000
    let add_bytes := elapsed * 512000 / 1000
    { st with tokens_pkts := min (st.tokens_pkts + add_pkts) 200
              tokens_bytes := min (st.tokens_bytes + add_bytes) 512000
              last := now }

/-- `TalkerSet` (`voice_forwarder.rs` lines 417-424): active-talker
tracking with a time window; `last_seen` maps a user to the instant of their
last admitted packet, `order` is the pruning queue. -/
structure TalkerSet where
  window : Nat
  last_seen : List (UserId × Nat)
  order : List (UserId × Nat)
deriving DecidableEq, Repr

/-- `TalkerSet::new` (`voice_forwarder.rs` lines 427-429). -/
def TalkerSet.new (window : Nat) : TalkerSet :=
  { window := window, last_seen := [], order := [] }

/-- `TalkerSet::touch` (`voice_forwarder.rs` lines 431-435). -/
def TalkerSet.touch (s : TalkerSet) (user : UserId) (now : Nat) : TalkerSet :=
  { s with last_seen := updateAssoc s.last_seen user now
           order := s.order ++ [(user, now)] }

/-- `TalkerSet::is_active` (`voice_forwarder.rs` lines 437-439). -/
def TalkerSet.is_active (s : TalkerSet) (user : UserId) (now : Nat) : Bool :=
  match s.last_seen.lookup user with
  | some t => decide (now - t ≤ s.window)
  | none => false

/-- `TalkerSet::active_count` (`voice_forwarder.rs` lines 441-443). -/
def TalkerSet.active_count (s : TalkerSet) (now : Nat) : Nat :=
  (s.last_seen.filter fun p => now - p.2 ≤ s.window).length

/-- The loop body of `TalkerSet::prune` (`voice_forwarder.rs` lines
445-459): pop stale entries off the front of the pruning queue; remove a
user from `last_seen` only when the popped timestamp is still their current
one and it is stale. -/
def prune_go (window now : Nat) :
    List (UserId × Nat) → List (UserId × Nat) →
      List (UserId × Nat) × List (UserId × Nat)
  | [], seen => ([], seen)
  | (u, t) :: rest, seen =>
      if now - t ≤ window then ((u, t) :: rest, seen)
      else
        let seen' :=
          match seen.lookup u with
          | some cur =>
              if cur == t && decide (window < now - cur) then
                seen.filter fun p => p.1 != u
              else seen
          | none => seen
        prune_go window now rest seen'

/-- `TalkerSet::prune`. -/
def TalkerSet.prune (s : TalkerSet) (now : Nat) : TalkerSet :=
  let (order', seen') := prune_go s.window now s.order s.last_seen
  { s with order := order', last_seen := seen' }

/-- The capability environment of the forwarder: the `MembershipProvider`
and `SessionRegistry` traits (`voice_forwarder.rs` lines 40-67), as pure
functions. -/
structure ForwarderEnv where
  resolve_channel_for_sender : UserId → Nat → Option ChannelId
  list_members : ChannelId → List UserId
  is_muted : ChannelId → UserId → Bool
  max_talkers : ChannelId → Nat
  has_session : UserId → Bool

/-- The forwarder's drop/traffic counters (`VoiceMetrics`,
`voice_forwarder.rs` lines 69-80).  `forwarded` accumulates the fanout
counts passed to `inc_forwarded`. -/
structure VoiceMetricsState where
  rx_packets : Nat
  rx_bytes : Nat
  drop_invalid : Nat
  drop_rate_limited : Nat
  drop_not_member : Nat
  drop_muted : Nat
  drop_talker_limit : Nat
  drop_send_queue_full : Nat
  forwarded : Nat
deriving DecidableEq, Repr

def VoiceMetricsState.zero : VoiceMetricsState :=
  { rx_packets := 0, rx_bytes := 0, drop_invalid := 0, drop_rate_limited := 0,
    drop_not_member := 0, drop_muted := 0, drop_talker_limit := 0,
    drop_send_queue_full := 0, forwarded := 0 }

/-- The mutable state of `VoiceForwarder` (`voice_forwarder.rs` lines
133-147) plus the metric counters. -/
structure ForwarderState where
  send_loops : List (UserId × List (List Nat))
  talkers : List (ChannelId × TalkerSet)
  rate : List (UserId × RateState)
  metrics : VoiceMetricsState
deriving DecidableEq, Repr

def ForwarderState.empty : ForwarderState :=
  { send_loops := [], talkers := [], rate := [], metrics := VoiceMetricsState.zero }

/-- `VoiceForwarder::allow_rate` (`voice_forwarder.rs` lines 273-285):
fetch-or-create the sender's `RateState` (a fresh one starts with zero
tokens), refill, then require at least one packet token and `bytes` byte
tokens.  The refilled (and, on success, debited) state is stored back in
both cases. -/
def allow_rate (st : ForwarderState) (sender : UserId) (now_mono : Nat)
    (bytes : Nat) : Bool × ForwarderState :=
  let rs0 := (st.rate.lookup sender).getD (RateState.new now_mono)
  let rs := rs0.refill now_mono
  if rs.tokens_pkts == 0 || rs.tokens_bytes < bytes then
    (false, { st with rate := updateAssoc st.rate sender rs })
  else
    let rs2 : RateState :=
      { rs with tokens_pkts := rs.tokens_pkts - 1
                tokens_bytes := rs.tokens_bytes - bytes }
    (true, { st with rate := updateAssoc st.rate sender rs2 })

/-- `VoiceForwarder::allow_talker` (`voice_forwarder.rs` lines 288-307):
the talker bound is `membership.max_talkers(channel).max(1)` — a configured
maximum of zero still admits one talker.  Prune, admit refreshes for already
active senders, otherwise admit only below the bound. -/
def allow_talker (cfg : VoiceForwarderConfig) (env : ForwarderEnv)
    (st : ForwarderState) (channel : ChannelId) (sender : UserId)
    (now_mono : Nat) : Bool × ForwarderState :=
  let maxt := max (env.max_talkers channel) 1
  let s0 := (st.talkers.lookup channel).getD (TalkerSet.new cfg.talker_activity_window)
  let s1 := s0.prune now_mono
  if s1.is_active sender now_mono then
    (true, { st with talkers := updateAssoc st.talkers channel (s1.touch sender now_mono) })
  else if maxt ≤ s1.active_count now_mono then
    (false, { st with talkers := updateAssoc st.talkers channel s1 })
  else
    (true, { st with talkers := updateAssoc st.talkers channel (s1.touch sender now_mono) })

/-- `VoiceForwarder::enqueue_to_receiver` (`voice_forwarder.rs` lines
243-270): `try_send` onto an existing queue, or — when the receiver has a
session — create the queue (spawning its writer task) and `try_send` onto
it.  A full queue fails without blocking. -/
def enqueue_to_receiver (cfg : VoiceForwarderConfig) (env : ForwarderEnv)
    (st : ForwarderState) (receiver : UserId) (datagram : List Nat) :
    Bool × ForwarderState :=
  match st.send_loops.lookup receiver with
  | some q =>
      if q.length < cfg.per_receiver_queue then
        (true, { st with send_loops := updateAssoc st.send_loops receiver (q ++ [datagram]) })
      else (false, st)
  | none =>
      if env.has_session receiver then
        if 0 < cfg.per_receiver_queue then
          (true, { st with send_loops := updateAssoc st.send_loops receiver [datagram] })
        else
          (false, { st with send_loops := updateAssoc st.send_loops receiver [] })
      else (false, st)

/-- The fanout loop of `handle_incoming` (`voice_forwarder.rs` lines
224-237): enqueue to every member except the sender, counting successes;
each full queue counts one `send_queue_full` drop for that receiver only. -/
def fanout_go (cfg : VoiceForwarderConfig) (env : ForwarderEnv)
    (st : ForwarderState) (sender : UserId) (datagram : List Nat) :
    List UserId → ForwarderState × Nat
  | [] => (st, 0)
  | uid :: rest =>
      if uid == sender then fanout_go cfg env st sender datagram rest
      else
        let (ok, st1) := enqueue_to_receiver cfg env st uid datagram
        let st2 :=
          if ok then st1
          else { st1 with metrics := { st1.metrics with
                   drop_send_queue_full := st1.metrics.drop_send_queue_full + 1 } }
        let (stf, n) := fanout_go cfg env st2 sender datagram rest
        (stf, if ok then n + 1 else n)

/-- `VoiceForwarder::handle_incoming` (`voice_forwarder.rs` lines 169-240):
the per-datagram decision pipeline.  `now_mono` stands for `Instant::now()`
and `now_unix` for `unix_ms()` during this call. -/
def handle_incoming (cfg : VoiceForwarderConfig) (env : ForwarderEnv)
    (st : ForwarderState) (sender : UserId) (datagram : List Nat)
    (now_mono now_unix : Nat) : ForwarderState :=
  let st := { st with metrics := { st.metrics with
      rx_packets := st.metrics.rx_packets + 1
      rx_bytes := st.metrics.rx_bytes + datagram.length } }
  if datagram.length < cfg.min_datagram_bytes ∨
      cfg.max_datagram_bytes < datagram.length then
    { st with metrics := { st.metrics with drop_invalid := st.metrics.drop_invalid + 1 } }
  else
    match VoicePacket.parse datagram with
    | none =>
        { st with metrics := { st.metrics with drop_invalid := st.metrics.drop_invalid + 1 } }
    | some p =>
        if ¬ p.ts_sane cfg.max_ts_skew_ms now_unix then
          { st with metrics := { st.metrics with drop_invalid := st.metrics.drop_invalid + 1 } }
        else
          let (rateOk, st) := allow_rate st sender now_mono datagram.length
          if ¬ rateOk then
            { st with metrics := { st.metrics with
                drop_rate_limited := st.metrics.drop_rate_limited + 1 } }
          else
            match env.resolve_channel_for_sender sender p.channel_route with
            | none =>
                { st with metrics := { st.metrics with
                    drop_not_member := st.metrics.drop_not_member + 1 } }
            | some channel =>
                if env.is_muted channel sender then
                  { st with metrics := { st.metrics with
                      drop_muted := st.metrics.drop_muted + 1 } }
                else
                  let vad_ok := !cfg.vad_required_for_talker || p.vad
                  let (talkOk, st) :=
                    if vad_ok then allow_talker cfg env st channel sender now_mono
                    else (true, st)
                  if ¬ talkOk then
                    { st with metrics := { st.metrics with
                        drop_talker_limit := st.metrics.drop_talker_limit + 1 } }
                  else
                    let (st, n) := fanout_go cfg env st sender datagram
                      (env.list_members channel)
                    { st with metrics := { st.metrics with
                        forwarded := st.metrics.forwarded + n } }

/-! ## Claim C9 — a fresh sender's first datagram is rate-limited -/

/-- C9: a fresh `RateState` starts with zero packet tokens and zero byte
tokens; a refill occurring less than 10 ms after creation adds no tokens; so
for a sender with no prior rate-limit state, the first datagram that reaches
the rate-limit gate — one that passed the length, header and timestamp
checks — is always dropped as `rate_limited`: the gate's entry is created,
refilled with nothing, and found empty, and nothing is forwarded. -/
theorem first_datagram_rate_limited (cfg : VoiceForwarderConfig)
    (env : ForwarderEnv) (st : ForwarderState) (sender : UserId)
    (b : List Nat) (now_mono now_unix : Nat) (p : VoicePacket)
    (hfresh : st.rate.lookup sender = none)
    (hlen1 : cfg.min_datagram_bytes ≤ b.length)
    (hlen2 : b.length ≤ cfg.max_datagram_bytes)
    (hparse : VoicePacket.parse b = some p)
    (hts : p.ts_sane cfg.max_ts_skew_ms now_unix = true) :
    (RateState.new now_mono).tokens_pkts = 0 ∧
    (RateState.new now_mono).tokens_bytes = 0 ∧
    (∀ t, t - now_mono < 10 → (RateState.new now_mono).refill t = RateState.new now_mono) ∧
    (allow_rate st sender now_mono b.length).1 = false ∧
    (handle_incoming cfg env st sender b now_mono now_unix).metrics.drop_rate_limited
      = st.metrics.drop_rate_limited + 1 ∧
    (handle_incoming cfg env st sender b now_mono now_unix).send_loops = st.send_loops ∧
    (handle_incoming cfg env st sender b now_mono now_unix).metrics.forwarded
      = st.metrics.forwarded := by
  have hrefill0 : ∀ t, t - now_mono < 10 →
      (RateState.new now_mono).refill t = RateState.new now_mono := by
    intro t ht
    simp [RateState.refill, RateState.new, ht]
  have hnr : (RateState.new now_mono).refill now_mono = RateState.new now_mono :=
    hrefill0 now_mono (by omega)
  have hallow : ∀ st' : ForwarderState, st'.rate = st.rate →
      allow_rate st' sender now_mono b.length =
        (false, { st' with rate := updateAssoc st'.rate sender (RateState.new now_mono) }) := by
    intro st' hr
    simp only [allow_rate, hr, hfresh, Option.getD_none]
    rw [hnr]
    simp [RateState.new]
  have hrun : handle_incoming cfg env st sender b now_mono now_unix =
      { st with
        rate := updateAssoc st.rate sender (RateState.new now_mono)
        metrics := { st.metrics with
          rx_packets := st.metrics.rx_packets + 1
          rx_bytes := st.metrics.rx_bytes + b.length
          drop_rate_limited := st.metrics.drop_rate_limited + 1 } } := by
    simp only [handle_incoming, hparse, hts, not_true, if_false]
    rw [if_neg (by omega)]
    rw [hallow { st with metrics := { st.metrics with
          rx_packets := st.metrics.rx_packets + 1
          rx_bytes := st.metrics.rx_bytes + b.length } } rfl]
    simp
  refine ⟨rfl, rfl, hrefill0, by rw [hallow st rfl], ?_, ?_, ?_⟩ <;> rw [hrun]

/-- Witness for `first_datagram_rate_limited`: the default configuration, an
empty forwarder state, and a well-formed 20-byte datagram (version 1,
flags 0, header_len 20, timestamp 0 at wall-clock 0). -/
theorem first_datagram_rate_limited_witness :
    let b : List Nat := [1, 0, 0, 20, 0, 0, 0, 0, 0, 0, 0, 0, 0, 0, 0, 0, 0, 0, 0, 0]
    (allow_rate ForwarderState.empty 7 0 b.length).1 = false ∧
    (handle_incoming VoiceForwarderConfig.default
        { resolve_channel_for_sender := fun _ _ => none, list_members := fun _ => [],
          is_muted := fun _ _ => false, max_talkers := fun _ => 4,
          has_session := fun _ => false }
        ForwarderState.empty 7 b 0 0).metrics.drop_rate_limited = 1 := by
  intro b
  have h := first_datagram_rate_limited VoiceForwarderConfig.default
    { resolve_channel_for_sender := fun _ _ => none, list_members := fun _ => [],
      is_muted := fun _ _ => false, max_talkers := fun _ => 4,
      has_session := fun _ => false }
    ForwarderState.empty 7 b 0 0
    { version := 1, flags := 0, header_len := 20, channel_route := 0, ssrc := 0,
      seq := 0, ts_ms := 0, vad := false }
    (by decide) (by decide) (by decide) (by decide) (by decide)
  refine ⟨h.2.2.2.1, ?_⟩
  rw [h.2.2.2.2.1]
  rfl

/-! ## Claim C3 — wire-format validation drops -/

/-- `VoicePacket::parse` fails on short datagrams, wrong version, or wrong
header length. -/
theorem parse_eq_none_of_bad (b : List Nat)
    (h : b.length < 20 ∨ (20 ≤ b.length ∧ b.getD 0 0 ≠ 1) ∨
         (20 ≤ b.length ∧ (b.getD 2 0) * 256 + b.getD 3 0 ≠ 20)) :
    VoicePacket.parse b = none := by
  rcases h with h | ⟨hlen, hv⟩ | ⟨hlen, hh⟩
  · simp only [VoicePacket.parse]
    rw [if_pos h]
  · simp only [VoicePacket.parse]
    rw [if_neg (by omega), if_pos hv]
  · simp only [VoicePacket.parse]
    rw [if_neg (by omega)]
    by_cases hv : b.getD 0 0 ≠ 1
    · rw [if_pos hv]
    · rw [if_neg hv, if_pos hh]

/-- C3 as amended: a datagram whose length is below the configured minimum
or above the configured maximum, or that is shorter than the 20-byte header,
or whose version byte is not 1, or whose header-length field is not 20, is
dropped: the invalid drop counter is incremented exactly once, no other drop
counter moves, and no receiver queue is touched.  (The reserved flag bits,
which the claim also listed, are *not* validated — see the counterexample.) -/
theorem invalid_datagram_dropped_once (cfg : VoiceForwarderConfig)
    (env : ForwarderEnv) (st : ForwarderState) (sender : UserId)
    (b : List Nat) (now_mono now_unix : Nat)
    (h : b.length < cfg.min_datagram_bytes ∨ cfg.max_datagram_bytes < b.length ∨
         b.length < 20 ∨ (20 ≤ b.length ∧ b.getD 0 0 ≠ 1) ∨
         (20 ≤ b.length ∧ (b.getD 2 0) * 256 + b.getD 3 0 ≠ 20)) :
    (handle_incoming cfg env st sender b now_mono now_unix).metrics.drop_invalid
      = st.metrics.drop_invalid + 1 ∧
    (handle_incoming cfg env st sender b now_mono now_unix).send_loops = st.send_loops ∧
    (handle_incoming cfg env st sender b now_mono now_unix).metrics.forwarded
      = st.metrics.forwarded ∧
    (handle_incoming cfg env st sender b now_mono now_unix).metrics.drop_rate_limited
      = st.metrics.drop_rate_limited ∧
    (handle_incoming cfg env st sender b now_mono now_unix).metrics.drop_not_member
      = st.metrics.drop_not_member ∧
    (handle_incoming cfg env st sender b now_mono now_unix).metrics.drop_muted
      = st.metrics.drop_muted ∧
    (handle_incoming cfg env st sender b now_mono now_unix).metrics.drop_talker_limit
      = st.metrics.drop_talker_limit ∧
    (handle_incoming cfg env st sender b now_mono now_unix).metrics.drop_send_queue_full
      = st.metrics.drop_send_queue_full := by
  have hrun : handle_incoming cfg env st sender b now_mono now_unix =
      { st with metrics := { st.metrics with
          rx_packets := st.metrics.rx_packets + 1
          rx_bytes := st.metrics.rx_bytes + b.length
          drop_invalid := st.metrics.drop_invalid + 1 } } := by
    by_cases hA : b.length < cfg.min_datagram_bytes ∨ cfg.max_datagram_bytes < b.length
    · simp only [handle_incoming]
      rw [if_pos hA]
    · have hparse : VoicePacket.parse b = none := by
        apply parse_eq_none_of_bad
        rcases h with h | h | h | h | h
        · exact absurd (Or.inl h) hA
        · exact absurd (Or.inr h) hA
        · exact Or.inl h
        · exact Or.inr (Or.inl h)
        · exact Or.inr (Or.inr h)
      simp only [handle_incoming, hparse]
      rw [if_neg hA]
  refine ⟨?_, ?_, ?_, ?_, ?_, ?_, ?_, ?_⟩ <;> rw [hrun]

/-- Witness for `invalid_datagram_dropped_once`: a 20-byte datagram with
version byte 2 under the default configuration. -/
theorem invalid_datagram_dropped_once_witness :
    let b : List Nat := [2, 0, 0, 20, 0, 0, 0, 0, 0, 0, 0, 0, 0, 0, 0, 0, 0, 0, 0, 0]
    (handle_incoming VoiceForwarderConfig.default
        { resolve_channel_for_sender := fun _ _ => none, list_members := fun _ => [],
          is_muted := fun _ _ => false, max_talkers := fun _ => 4,
          has_session := fun _ => false }
        ForwarderState.empty 7 b 0 0).metrics.drop_invalid = 1 := by
  intro b
  have h := invalid_datagram_dropped_once VoiceForwarderConfig.default
    { resolve_channel_for_sender := fun _ _ => none, list_members := fun _ => [],
      is_muted := fun _ _ => false, max_talkers := fun _ => 4,
      has_session := fun _ => false }
    ForwarderState.empty 7 b 0 0
    (by right; right; right; left; exact ⟨by decide, by decide⟩)
  rw [h.1]
  rfl

/-- C3 counterexample: a 20-byte datagram with a reserved flag bit set
(flags = `0b100`) and every validated field correct.  The claim requires it
to be dropped with exactly one `invalid` tick; the forwarder does not check
reserved flag bits, parses it successfully, and goes on to drop it at the
rate gate instead: the invalid counter stays 0 while `rate_limited` becomes
1. -/
theorem reserved_flag_bits_not_validated :
    let b : List Nat := [1, 4, 0, 20, 0, 0, 0, 0, 0, 0, 0, 0, 0, 0, 0, 0, 0, 0, 0, 0]
    let env : ForwarderEnv :=
      { resolve_channel_for_sender := fun _ _ => none, list_members := fun _ => [],
        is_muted := fun _ _ => false, max_talkers := fun _ => 4,
        has_session := fun _ => false }
    (b.getD 1 0) &&& 0xFC ≠ 0 ∧
    b.getD 0 0 = 1 ∧ (b.getD 2 0) * 256 + b.getD 3 0 = 20 ∧
    VoiceForwarderConfig.default.min_datagram_bytes ≤ b.length ∧
    b.length ≤ VoiceForwarderConfig.default.max_datagram_bytes ∧
    (handle_incoming VoiceForwarderConfig.default env
        ForwarderState.empty 7 b 0 0).metrics.drop_invalid = 0 ∧
    (handle_incoming VoiceForwarderConfig.default env
        ForwarderState.empty 7 b 0 0).metrics.drop_rate_limited = 1 := by
  exact ⟨by decide, by decide, by decide, by decide, by decide, by decide, by decide⟩

/-! ## Claim C4 — rate-limit window bound -/

/-- Division by a fixed denominator is superadditive. -/
theorem nat_div_add_div_le (a b n : Nat) : a / n + b / n ≤ (a + b) / n := by
  rcases Nat.eq_zero_or_pos n with h | h
  · subst h
    simp
  · rw [Nat.le_div_iff_mul_le h, Nat.add_mul]
    have h1 := Nat.div_mul_le_self a n
    have h2 := Nat.div_mul_le_self b n
    omega

/-- `RateState.refill` either does nothing (less than 10 ms since the last
refill, `last` not advanced) or flushes the accumulated time into tokens at
200 pkts/s and 512 000 B/s, capped at one second of quota. -/
theorem refill_cases (rs : RateState) (t : Nat) :
    (t - rs.last < 10 ∧ rs.refill t = rs) ∨
    (10 ≤ t - rs.last ∧ rs.refill t =
      { rs with tokens_pkts := min (rs.tokens_pkts + (t - rs.last) * 200 / 1000) 200
                tokens_bytes := min (rs.tokens_bytes + (t - rs.last) * 512000 / 1000) 512000
                last := t }) := by
  by_cases h : t - rs.last < 10
  · exact Or.inl ⟨h, by simp [RateState.refill, h]⟩
  · exact Or.inr ⟨by omega, by simp [RateState.refill, h]⟩

/-- `allow_rate` on a sender with stored state `rs`, when the refilled
bucket is empty (or short on bytes): deny, storing the refilled state. -/
theorem allow_rate_deny (st : ForwarderState) (sender : UserId) (t bytes : Nat)
    (rs : RateState) (hlook : st.rate.lookup sender = some rs)
    (h : (rs.refill t).tokens_pkts = 0 ∨ (rs.refill t).tokens_bytes < bytes) :
    allow_rate st sender t bytes =
      (false, { st with rate := updateAssoc st.rate sender (rs.refill t) }) := by
  simp only [allow_rate, hlook, Option.getD_some]
  rcases h with h | h
  · simp [h]
  · simp [h]

/-- The token debit an admission performs. -/
def rate_debit (rs : RateState) (bytes : Nat) : RateState :=
  { rs with tokens_pkts := rs.tokens_pkts - 1, tokens_bytes := rs.tokens_bytes - bytes }

theorem rate_debit_pkts (rs : RateState) (bytes : Nat) :
    (rate_debit rs bytes).tokens_pkts = rs.tokens_pkts - 1 := rfl

theorem rate_debit_bytes (rs : RateState) (bytes : Nat) :
    (rate_debit rs bytes).tokens_bytes = rs.tokens_bytes - bytes := rfl

theorem rate_debit_last (rs : RateState) (bytes : Nat) :
    (rate_debit rs bytes).last = rs.last := rfl

/-- `allow_rate` on a sender with stored state `rs`, when the refilled
bucket has a packet token and enough byte tokens: admit, debiting one packet
token and `bytes` byte tokens. -/
theorem allow_rate_admit (st : ForwarderState) (sender : UserId) (t bytes : Nat)
    (rs : RateState) (hlook : st.rate.lookup sender = some rs)
    (h1 : (rs.refill t).tokens_pkts ≠ 0) (h2 : bytes ≤ (rs.refill t).tokens_bytes) :
    allow_rate st sender t bytes =
      (true, { st with
        rate := updateAssoc st.rate sender (rate_debit (rs.refill t) bytes) }) := by
  simp only [allow_rate, hlook, Option.getD_some, rate_debit]
  simp [h1, Nat.not_lt.mpr h2]

/-- Running a sequence of admission attempts by one sender through
`allow_rate`, returning the final state and the total admitted packets and
bytes. -/
def run_rate (st : ForwarderState) (sender : UserId) :
    List (Nat × Nat) → ForwarderState × Nat × Nat
  | [] => (st, 0, 0)
  | (t, bytes) :: rest =>
      let (ok, st1) := allow_rate st sender t bytes
      let (stf, pk, bts) := run_rate st1 sender rest
      (stf, (if ok then pk + 1 else pk), if ok then bts + bytes else bts)

/-- The token-bucket potential argument: the packets (bytes) admitted by a
time-ordered sequence of attempts are bounded by the tokens on hand at the
start plus the refill budget of the interval from the last refill to any
deadline covering all attempts — at the hardcoded rates of 200 packets and
512 000 bytes per second. -/
theorem run_rate_budget (events : List (Nat × Nat)) :
    ∀ (st : ForwarderState) (sender : UserId) (rs : RateState) (deadline : Nat),
      st.rate.lookup sender = some rs →
      List.Pairwise (fun a b => a.1 ≤ b.1) events →
      (∀ e ∈ events, rs.last ≤ e.1) →
      (∀ e ∈ events, e.1 ≤ deadline) →
      (run_rate st sender events).2.1 ≤
        rs.tokens_pkts + (deadline - rs.last) * 200 / 1000 ∧
      (run_rate st sender events).2.2 ≤
        rs.tokens_bytes + (deadline - rs.last) * 512000 / 1000 := by
  induction events with
  | nil =>
    intro st sender rs deadline _ _ _ _
    exact ⟨Nat.zero_le _, Nat.zero_le _⟩
  | cons e rest ih =>
    intro st sender rs deadline hlook hsort hlo hhi
    obtain ⟨t, bytes⟩ := e
    have hrest_sort : List.Pairwise (fun a b => a.1 ≤ b.1) rest := hsort.of_cons
    have hrest_t : ∀ e ∈ rest, t ≤ e.1 := by
      intro e he
      exact List.rel_of_pairwise_cons hsort he
    have hrest_hi : ∀ e ∈ rest, e.1 ≤ deadline := fun e he => hhi e (List.mem_cons_of_mem _ he)
    have ht_lo : rs.last ≤ t := hlo (t, bytes) (List.mem_cons_self _ _)
    have ht_hi : t ≤ deadline := hhi (t, bytes) (List.mem_cons_self _ _)
    -- budget split across the refill point
    have hsplit_p : (t - rs.last) * 200 / 1000 + (deadline - t) * 200 / 1000 ≤
        (deadline - rs.last) * 200 / 1000 := by
      have h := nat_div_add_div_le ((t - rs.last) * 200) ((deadline - t) * 200) 1000
      have he : (t - rs.last) * 200 + (deadline - t) * 200 =
          (deadline - rs.last) * 200 := by
        have : (t - rs.last) + (deadline - t) = deadline - rs.last := by omega
        calc (t - rs.last) * 200 + (deadline - t) * 200
            = ((t - rs.last) + (deadline - t)) * 200 := by ring
          _ = (deadline - rs.last) * 200 := by rw [this]
      rw [he] at h
      exact h
    have hsplit_b : (t - rs.last) * 512000 / 1000 + (deadline - t) * 512000 / 1000 ≤
        (deadline - rs.last) * 512000 / 1000 := by
      have h := nat_div_add_div_le ((t - rs.last) * 512000) ((deadline - t) * 512000) 1000
      have he : (t - rs.last) * 512000 + (deadline - t) * 512000 =
          (deadline - rs.last) * 512000 := by
        have : (t - rs.last) + (deadline - t) = deadline - rs.last := by omega
        calc (t - rs.last) * 512000 + (deadline - t) * 512000
            = ((t - rs.last) + (deadline - t)) * 512000 := by ring
          _ = (deadline - rs.last) * 512000 := by rw [this]
      rw [he] at h
      exact h
    -- the refilled state: tokens bound and anchor position
    have hrefill : (t - rs.last < 10 ∧ rs.refill t = rs) ∨
        (10 ≤ t - rs.last ∧ rs.refill t =
          { rs with tokens_pkts := min (rs.tokens_pkts + (t - rs.last) * 200 / 1000) 200
                    tokens_bytes := min (rs.tokens_bytes + (t - rs.last) * 512000 / 1000) 512000
                    last := t }) := refill_cases rs t
    have hr_last : (rs.refill t).last = rs.last ∨ (rs.refill t).last = t := by
      rcases hrefill with ⟨_, h⟩ | ⟨_, h⟩
      · rw [h]; exact Or.inl rfl
      · rw [h]; exact Or.inr rfl
    have hr_pk : (rs.refill t).tokens_pkts + (deadline - (rs.refill t).last) * 200 / 1000 ≤
        rs.tokens_pkts + (deadline - rs.last) * 200 / 1000 := by
      rcases hrefill with ⟨_, h⟩ | ⟨_, h⟩
      · rw [h]
      · rw [h]
        have hmin : min (rs.tokens_pkts + (t - rs.last) * 200 / 1000) 200 ≤
            rs.tokens_pkts + (t - rs.last) * 200 / 1000 := Nat.min_le_left _ _
        simp only
        omega
    have hr_by : (rs.refill t).tokens_bytes + (deadline - (rs.refill t).last) * 512000 / 1000 ≤
        rs.tokens_bytes + (deadline - rs.last) * 512000 / 1000 := by
      rcases hrefill with ⟨_, h⟩ | ⟨_, h⟩
      · rw [h]
      · rw [h]
        have hmin : min (rs.tokens_bytes + (t - rs.last) * 512000 / 1000) 512000 ≤
            rs.tokens_bytes + (t - rs.last) * 512000 / 1000 := Nat.min_le_left _ _
        simp only
        omega
    have hr_lo : ∀ e ∈ rest, (rs.refill t).last ≤ e.1 := by
      intro e he
      rcases hr_last with h | h <;> rw [h]
      · exact le_trans ht_lo (hrest_t e he)
      · exact hrest_t e he
    -- case split on the admission decision
    by_cases hden : (rs.refill t).tokens_pkts = 0 ∨ (rs.refill t).tokens_bytes < bytes
    · have hstep := allow_rate_deny st sender t bytes rs hlook hden
      have hlook2 : ({ st with rate := updateAssoc st.rate sender (rs.refill t) }
          : ForwarderState).rate.lookup sender = some (rs.refill t) :=
        lookup_updateAssoc_self st.rate sender (rs.refill t)
      have hrec := ih _ sender (rs.refill t) deadline hlook2 hrest_sort hr_lo hrest_hi
      simp only [run_rate, hstep, if_false]
      constructor
      · exact le_trans hrec.1 hr_pk
      · exact le_trans hrec.2 hr_by
    · push_neg at hden
      obtain ⟨hpk0, hby0⟩ := hden
      have hstep := allow_rate_admit st sender t bytes rs hlook hpk0 hby0
      have hlook2 : ({ st with
            rate := updateAssoc st.rate sender (rate_debit (rs.refill t) bytes) }
          : ForwarderState).rate.lookup sender = some (rate_debit (rs.refill t) bytes) :=
        lookup_updateAssoc_self st.rate sender _
      have hrec := ih _ sender _ deadline hlook2 hrest_sort
        (by simpa [rate_debit_last] using hr_lo) hrest_hi
      rw [rate_debit_pkts, rate_debit_bytes, rate_debit_last] at hrec
      simp only [run_rate, hstep, if_true]
      constructor
      · exact le_trans (Nat.add_le_add_right hrec.1 1) (by omega)
      · exact le_trans (Nat.add_le_add_right hrec.2 bytes) (by omega)

/-- Refilling preserves the one-second burst ceilings (a flush caps at them;
a no-op keeps the input's tokens). -/
theorem refill_caps (rs : RateState) (t : Nat)
    (h : rs.tokens_pkts ≤ 200 ∧ rs.tokens_bytes ≤ 512000) :
    (rs.refill t).tokens_pkts ≤ 200 ∧ (rs.refill t).tokens_bytes ≤ 512000 := by
  rcases refill_cases rs t with ⟨_, he⟩ | ⟨_, he⟩ <;> rw [he]
  · exact h
  · exact ⟨Nat.min_le_right _ _, Nat.min_le_right _ _⟩

/-- `allow_rate` keeps the stored token counts within the one-second burst
ceilings (200 packets, 512 000 bytes): the reachability invariant behind the
window bound's hypotheses. -/
theorem allow_rate_caps (st : ForwarderState) (sender : UserId) (t bytes : Nat)
    (h0 : ∀ rs0, st.rate.lookup sender = some rs0 →
      rs0.tokens_pkts ≤ 200 ∧ rs0.tokens_bytes ≤ 512000) :
    ∀ rs', ((allow_rate st sender t bytes).2).rate.lookup sender = some rs' →
      rs'.tokens_pkts ≤ 200 ∧ rs'.tokens_bytes ≤ 512000 := by
  intro rs' h'
  have hcaps0 : ((st.rate.lookup sender).getD (RateState.new t)).tokens_pkts ≤ 200 ∧
      ((st.rate.lookup sender).getD (RateState.new t)).tokens_bytes ≤ 512000 := by
    cases hl : st.rate.lookup sender with
    | none => simp [RateState.new]
    | some rs0 => simpa using h0 rs0 hl
  have hcaps1 := refill_caps ((st.rate.lookup sender).getD (RateState.new t)) t hcaps0
  simp only [allow_rate] at h'
  split at h'
  · simp only at h'
    rw [lookup_updateAssoc_self] at h'
    injection h' with h'
    rw [← h']
    exact hcaps1
  · simp only at h'
    rw [lookup_updateAssoc_self] at h'
    injection h' with h'
    rw [← h']
    exact ⟨le_trans (Nat.sub_le _ _) hcaps1.1, le_trans (Nat.sub_le _ _) hcaps1.2⟩

/-- C4 counterexample: the claim bounds a one-second window by the
*configured* `sender_pps_limit` plus a one-second burst.  Configure
`sender_pps_limit = 1`: the refill code pays no attention to it (its rates
are hardcoded), so a sender with a one-second-old empty bucket gets 200
packet tokens and three back-to-back datagrams are all admitted —
3 > 1 + 1, the configured limit plus its one-second burst. -/
theorem rate_limit_ignores_configured_limits :
    let cfg : VoiceForwarderConfig :=
      { VoiceForwarderConfig.default with sender_pps_limit := 1 }
    let st0 : ForwarderState :=
      { ForwarderState.empty with rate := [(7, RateState.new 0)] }
    (run_rate st0 7 [(1000, 20), (1000, 20), (1000, 20)]).2.1 = 3 ∧
      cfg.sender_pps_limit + cfg.sender_pps_limit * 1 < 3 := by
  exact ⟨by decide, by decide⟩

/-- C4 as amended: the token buckets refill at the **hardcoded** rates of
200 packets/s and 512 000 bytes/s (the configured
`sender_pps_limit`/`sender_bps_limit` are not consulted), proportionally to
the elapsed time since the sender's last refill, with a burst ceiling of one
second of quota.  Consequently, for any sender whose stored state respects
the ceilings (every reachable state does — `allow_rate_caps`) and any
time-ordered sequence of attempts within one second of that sender's last
refill, the admitted packets number at most 200 + 200 and the admitted bytes
at most 512 000 + 512 000: rate plus one-second burst, in both dimensions. -/
theorem rate_limit_window_bound (st : ForwarderState) (sender : UserId)
    (rs0 : RateState) (events : List (Nat × Nat)) (deadline : Nat)
    (hlook : st.rate.lookup sender = some rs0)
    (hpk : rs0.tokens_pkts ≤ 200) (hby : rs0.tokens_bytes ≤ 512000)
    (hsort : List.Pairwise (fun a b => a.1 ≤ b.1) events)
    (hlo : ∀ e ∈ events, rs0.last ≤ e.1)
    (hhi : ∀ e ∈ events, e.1 ≤ deadline)
    (hwin : deadline ≤ rs0.last + 1000) :
    (run_rate st sender events).2.1 ≤ 200 + 200 ∧
    (run_rate st sender events).2.2 ≤ 512000 + 512000 := by
  have h := run_rate_budget events st sender rs0 deadline hlook hsort hlo hhi
  have hd : deadline - rs0.last ≤ 1000 := by omega
  have hbud_p : (deadline - rs0.last) * 200 / 1000 ≤ 200 := by
    calc (deadline - rs0.last) * 200 / 1000
        ≤ 1000 * 200 / 1000 := Nat.div_le_div_right (Nat.mul_le_mul_right _ hd)
      _ = 200 := by norm_num
  have hbud_b : (deadline - rs0.last) * 512000 / 1000 ≤ 512000 := by
    calc (deadline - rs0.last) * 512000 / 1000
        ≤ 1000 * 512000 / 1000 := Nat.div_le_div_right (Nat.mul_le_mul_right _ hd)
      _ = 512000 := by norm_num
  exact ⟨le_trans h.1 (by omega), le_trans h.2 (by omega)⟩

/-- Witness for `rate_limit_window_bound`: a sender holding full buckets
(`last = 0`), two attempts inside the second. -/
theorem rate_limit_window_bound_witness :
    let st0 : ForwarderState :=
      { ForwarderState.empty with rate :=
          [(7, { last := 0, tokens_pkts := 200, tokens_bytes := 512000,
                 last_ts_ms := none })] }
    (run_rate st0 7 [(0, 20), (500, 20)]).2.1 ≤ 200 + 200 ∧
    (run_rate st0 7 [(0, 20), (500, 20)]).2.2 ≤ 512000 + 512000 := by
  intro st0
  exact rate_limit_window_bound st0 7
    { last := 0, tokens_pkts := 200, tokens_bytes := 512000, last_ts_ms := none }
    [(0, 20), (500, 20)] 1000
    (by decide) (by decide) (by decide) (by decide)
    (by decide) (by decide) (by decide)

/-! ## Claim C5 — talker cap -/

/-- The number of window-fresh entries among `l` at instant `now`. -/
def freshCount (l : List (UserId × Nat)) (w now : Nat) : Nat :=
  (l.filter fun p => now - p.2 ≤ w).length

theorem TalkerSet.active_count_eq_freshCount (s : TalkerSet) (now : Nat) :
    s.active_count now = freshCount s.last_seen s.window now := rfl

/-- Counting fresh entries at a later instant, over entries no newer than
the earlier instant, can only shrink. -/
theorem freshCount_anti (l : List (UserId × Nat)) (w t t' : Nat)
    (hle : t ≤ t') (hts : ∀ p ∈ l, p.2 ≤ t) :
    freshCount l w t' ≤ freshCount l w t := by
  induction l with
  | nil => simp [freshCount]
  | cons p rest ih =>
    have hp : p.2 ≤ t := hts p (List.mem_cons_self _ _)
    have hrest := ih fun q hq => hts q (List.mem_cons_of_mem _ hq)
    simp only [freshCount, List.filter_cons] at hrest ⊢
    by_cases h' : t' - p.2 ≤ w
    · have h : t - p.2 ≤ w := by omega
      simp only [h, h', decide_True, if_true, List.length_cons]
      omega
    · by_cases h : t - p.2 ≤ w
      · simp only [h, h', decide_True, decide_False, Bool.false_eq_true, if_false, if_true,
          List.length_cons]
        omega
      · simp only [h, h', decide_False, Bool.false_eq_true, if_false]
        exact hrest

/-- A sublist has no more fresh entries. -/
theorem freshCount_sublist {l₁ l₂ : List (UserId × Nat)} (h : l₁.Sublist l₂)
    (w now : Nat) : freshCount l₁ w now ≤ freshCount l₂ w now :=
  (h.filter _).length_le

/-- The pruning loop only ever removes `last_seen` entries. -/
theorem prune_go_seen_sublist (w now : Nat) :
    ∀ (order seen : List (UserId × Nat)),
      (prune_go w now order seen).2.Sublist seen := by
  intro order
  induction order with
  | nil => intro seen; simp [prune_go]
  | cons e rest ih =>
    intro seen
    obtain ⟨u, t⟩ := e
    by_cases h : now - t ≤ w
    · simp [prune_go, h]
    · simp only [prune_go, h, if_false]
      cases hlk : seen.lookup u with
      | none => exact ih seen
      | some cur =>
        by_cases hc : cur == t ∧ decide (w < now - cur) = true
        · have : (cur == t && decide (w < now - cur)) = true := by
            simp [hc.1, hc.2]
          simp only [this, if_true]
          exact (ih _).trans (List.filter_sublist _)
        · have hfalse : (cur == t && decide (w < now - cur)) = false := by
            by_cases h1 : (cur == t) = true
            · by_cases h2 : decide (w < now - cur) = true
              · exact absurd ⟨h1, h2⟩ hc
              · simp only [Bool.not_eq_true] at h2
                simp [h2]
            · simp only [Bool.not_eq_true] at h1
              simp [h1]
          simp only [hfalse, if_false]
          exact ih seen

/-- `TalkerSet.prune` shrinks `last_seen`. -/
theorem prune_last_seen_sublist (s : TalkerSet) (now : Nat) :
    (s.prune now).last_seen.Sublist s.last_seen :=
  prune_go_seen_sublist s.window now s.order s.last_seen

theorem prune_window (s : TalkerSet) (now : Nat) :
    (s.prune now).window = s.window := rfl

/-- The keys of an in-place update. -/
theorem keys_updateAssoc_of_present {β : Type} (l : List (UserId × β)) (u : UserId)
    (v : β) (hany : l.any (·.1 == u) = true) :
    (updateAssoc l u v).map Prod.fst = l.map Prod.fst := by
  simp only [updateAssoc, hany, if_true, List.map_map]
  apply List.map_congr_left
  intro p _
  by_cases h : (p.1 == u) = true
  · have : p.1 = u := by simpa using h
    simp [Function.comp, h, this]
  · simp only [Bool.not_eq_true] at h
    simp [Function.comp, h]

theorem keys_updateAssoc_of_absent {β : Type} (l : List (UserId × β)) (u : UserId)
    (v : β) (hany : l.any (·.1 == u) = false) :
    (updateAssoc l u v).map Prod.fst = l.map Prod.fst ++ [u] := by
  simp [updateAssoc, hany]

/-- In-place update preserves key uniqueness. -/
theorem nodup_keys_updateAssoc {β : Type} (l : List (UserId × β)) (u : UserId)
    (v : β) (hnd : (l.map Prod.fst).Nodup) :
    ((updateAssoc l u v).map Prod.fst).Nodup := by
  cases hany : l.any (·.1 == u) with
  | true => rw [keys_updateAssoc_of_present l u v hany]; exact hnd
  | false =>
    rw [keys_updateAssoc_of_absent l u v hany]
    have hu : u ∉ l.map Prod.fst := by
      intro hm
      obtain ⟨p, hp, hpu⟩ := List.mem_map.mp hm
      have : l.any (·.1 == u) = true := by
        apply List.any_eq_true.mpr
        refine ⟨p, hp, ?_⟩
        show (p.1 == u) = true
        simp [hpu]
      rw [hany] at this
      cases this
    have : (l.map Prod.fst).Nodup ∧ u ∉ l.map Prod.fst := ⟨hnd, hu⟩
    simpa [List.nodup_append] using this

/-- Every entry of an in-place update is either an original entry or the
inserted pair. -/
theorem mem_updateAssoc {β : Type} {l : List (UserId × β)} {u : UserId} {v : β}
    {p : UserId × β} (hp : p ∈ updateAssoc l u v) : p ∈ l ∨ p = (u, v) := by
  simp only [updateAssoc] at hp
  split at hp
  · obtain ⟨q, hq, hqe⟩ := List.mem_map.mp hp
    by_cases h : (q.1 == u) = true
    · right
      rw [← hqe]
      simp [h]
    · left
      simp only [Bool.not_eq_true] at h
      rw [← hqe]
      simpa [h] using hq
  · rcases List.mem_append.mp hp with h | h
    · exact Or.inl h
    · exact Or.inr (by simpa using h)

/-- Replacing the (unique) entry of an absent key is the identity. -/
theorem map_replace_id {β : Type} (l : List (UserId × β)) (u : UserId) (v : β)
    (h : ∀ q ∈ l, (q.1 == u) = false) :
    (l.map fun p => bif p.1 == u then (u, v) else p) = l := by
  induction l with
  | nil => rfl
  | cons p rest ih =>
    have hp := h p (List.mem_cons_self _ _)
    simp only [List.map_cons, hp, Bool.cond_false]
    rw [ih fun q hq => h q (List.mem_cons_of_mem _ hq)]

/-- With unique keys, the tail beyond a key's entry does not hold the key. -/
theorem not_in_rest_of_nodup {β : Type} (p : UserId × β) (rest : List (UserId × β))
    (u : UserId) (hnd : ((p :: rest).map Prod.fst).Nodup) (hpk : (p.1 == u) = true) :
    ∀ q ∈ rest, (q.1 == u) = false := by
  intro q hq
  have hpu : p.1 = u := by simpa using hpk
  have hnot : p.1 ∉ rest.map Prod.fst := by
    rw [List.map_cons] at hnd
    exact (List.nodup_cons.mp hnd).1
  by_contra hc
  simp only [Bool.not_eq_false] at hc
  have : q.1 = u := by simpa using hc
  exact hnot (hpu ▸ this ▸ List.mem_map_of_mem Prod.fst hq)

/-- An in-place touch of `u` at the current instant adds at most one fresh
entry (with unique keys). -/
theorem freshCount_updateAssoc_le (l : List (UserId × Nat)) (u : UserId)
    (now w : Nat) (hnd : (l.map Prod.fst).Nodup) :
    freshCount (updateAssoc l u now) w now ≤ freshCount l w now + 1 := by
  cases hany : l.any (·.1 == u) with
  | false =>
    simp only [updateAssoc, hany, Bool.false_eq_true, if_false]
    simp only [freshCount, List.filter_append, List.length_append]
    have : (([(u, now)] : List (UserId × Nat)).filter
        fun p => now - p.2 ≤ w).length ≤ 1 := by
      simp [List.filter]
    omega
  | true =>
    simp only [updateAssoc, hany, if_true]
    clear hany
    induction l with
    | nil => simp [freshCount]
    | cons p rest ih =>
      cases hpk : p.1 == u with
      | true =>
        have hid := map_replace_id rest u now (not_in_rest_of_nodup p rest u hnd hpk)
        simp only [List.map_cons, hpk, Bool.cond_true, hid]
        simp only [freshCount, List.filter_cons]
        have h0 : now - now ≤ w := by omega
        simp only [h0, decide_True, if_true, List.length_cons]
        by_cases hp : now - p.2 ≤ w <;> simp [hp]
      | false =>
        have hrest := ih ((List.nodup_cons.mp (by simpa using hnd)).2)
        simp only [List.map_cons, hpk, Bool.cond_false]
        simp only [freshCount, List.filter_cons] at hrest ⊢
        by_cases hp : now - p.2 ≤ w
        · simp only [hp, decide_True, if_true, List.length_cons]
          omega
        · simp only [hp, decide_False, Bool.false_eq_true, if_false]
          omega

/-- An in-place touch of an already-fresh `u` does not grow the fresh
count (with unique keys). -/
theorem freshCount_updateAssoc_active (l : List (UserId × Nat)) (u : UserId)
    (now w : Nat) (hnd : (l.map Prod.fst).Nodup) (ts : Nat)
    (hlk : l.lookup u = some ts) (hact : now - ts ≤ w) :
    freshCount (updateAssoc l u now) w now ≤ freshCount l w now := by
  have hany : l.any (·.1 == u) = true := by
    clear hnd hact
    induction l with
    | nil => cases hlk
    | cons p rest ih =>
      simp only [List.lookup] at hlk
      cases hup : u == p.1 with
      | true =>
        have : (p.1 == u) = true := by
          have : u = p.1 := by simpa using hup
          simp [this]
        simp [this]
      | false =>
        rw [hup] at hlk
        simp only [List.any_cons]
        rw [ih hlk, Bool.or_true]
  simp only [updateAssoc, hany, if_true]
  clear hany
  induction l with
  | nil => cases hlk
  | cons p rest ih =>
    cases hpk : p.1 == u with
    | true =>
      have hid := map_replace_id rest u now (not_in_rest_of_nodup p rest u hnd hpk)
      have hup : (u == p.1) = true := by
        have : p.1 = u := by simpa using hpk
        simp [this]
      simp only [List.lookup, hup] at hlk
      injection hlk with hts
      simp only [List.map_cons, hpk, Bool.cond_true, hid]
      simp only [freshCount, List.filter_cons]
      have h0 : now - now ≤ w := by omega
      have hp : now - p.2 ≤ w := by omega
      simp [h0, hp]
    | false =>
      have hup : (u == p.1) = false := by
        by_contra hc
        simp only [Bool.not_eq_false] at hc
        have : u = p.1 := by simpa using hc
        simp [this] at hpk
      simp only [List.lookup, hup] at hlk
      have hrest := ih ((List.nodup_cons.mp (by simpa using hnd)).2) hlk
      simp only [List.map_cons, hpk, Bool.cond_false]
      simp only [freshCount, List.filter_cons] at hrest ⊢
      by_cases hp : now - p.2 ≤ w
      · simp only [hp, decide_True, if_true, List.length_cons]
        omega
      · simp only [hp, decide_False, Bool.false_eq_true, if_false]
        omega

/-- The per-channel talker set the forwarder consults: the stored set, or a
fresh one with the configured window. -/
def channelTalkers (st : ForwarderState) (cfg : VoiceForwarderConfig)
    (channel : ChannelId) : TalkerSet :=
  (st.talkers.lookup channel).getD (TalkerSet.new cfg.talker_activity_window)

theorem channelTalkers_def (st : ForwarderState) (cfg : VoiceForwarderConfig)
    (channel : ChannelId) :
    channelTalkers st cfg channel =
      (st.talkers.lookup channel).getD (TalkerSet.new cfg.talker_activity_window) := rfl

/-- The talker-gate invariant at instant `t`: at most `maxt` senders were
admitted within the window, the map's keys are unique, and no recorded
admission lies in the future. -/
def TalkerInv (s : TalkerSet) (t maxt : Nat) : Prop :=
  s.active_count t ≤ maxt ∧ (s.last_seen.map Prod.fst).Nodup ∧
    ∀ p ∈ s.last_seen, p.2 ≤ t

/-- The invariant survives the passage of time. -/
theorem TalkerInv.mono {s : TalkerSet} {t t' maxt : Nat} (h : TalkerInv s t maxt)
    (hle : t ≤ t') : TalkerInv s t' maxt := by
  obtain ⟨h1, h2, h3⟩ := h
  refine ⟨?_, h2, fun p hp => le_trans (h3 p hp) hle⟩
  rw [TalkerSet.active_count_eq_freshCount] at h1 ⊢
  exact le_trans (freshCount_anti s.last_seen s.window t t' hle h3) h1

/-- Pruning preserves the invariant. -/
theorem TalkerInv.prune {s : TalkerSet} {now maxt : Nat}
    (h : TalkerInv s now maxt) : TalkerInv (s.prune now) now maxt := by
  obtain ⟨h1, h2, h3⟩ := h
  have hsub := prune_last_seen_sublist s now
  refine ⟨?_, ?_, ?_⟩
  · rw [TalkerSet.active_count_eq_freshCount, prune_window]
    rw [TalkerSet.active_count_eq_freshCount] at h1
    exact le_trans (freshCount_sublist hsub s.window now) h1
  · exact h2.sublist (hsub.map Prod.fst)
  · exact fun p hp => h3 p (hsub.subset hp)

/-- `is_active` exposes a fresh `last_seen` entry. -/
theorem is_active_lookup {s : TalkerSet} {u : UserId} {now : Nat}
    (h : s.is_active u now = true) :
    ∃ ts, s.last_seen.lookup u = some ts ∧ now - ts ≤ s.window := by
  unfold TalkerSet.is_active at h
  cases hlk : s.last_seen.lookup u with
  | none => rw [hlk] at h; cases h
  | some ts =>
    rw [hlk] at h
    exact ⟨ts, rfl, by simpa using h⟩

/-- `allow_talker` preserves the talker-gate invariant at the call instant,
with the bound `max (max_talkers channel) 1`. -/
theorem allow_talker_preserves_inv (cfg : VoiceForwarderConfig)
    (env : ForwarderEnv) (st : ForwarderState) (channel : ChannelId)
    (sender : UserId) (now : Nat)
    (hinv : TalkerInv (channelTalkers st cfg channel) now
      (max (env.max_talkers channel) 1)) :
    TalkerInv
      (channelTalkers ((allow_talker cfg env st channel sender now).2) cfg channel)
      now (max (env.max_talkers channel) 1) := by
  obtain ⟨hc0, hnd0, hts0⟩ := hinv.prune
  rw [TalkerSet.active_count_eq_freshCount, prune_window] at hc0
  have htouch_mem : ∀ p ∈
      (((channelTalkers st cfg channel).prune now).touch sender now).last_seen,
      p.2 ≤ now := by
    intro p hp
    simp only [TalkerSet.touch] at hp
    rcases mem_updateAssoc hp with h | h
    · exact hts0 p h
    · rw [h]
  have htouch_nodup :
      ((((channelTalkers st cfg channel).prune now).touch sender
        now).last_seen.map Prod.fst).Nodup :=
    nodup_keys_updateAssoc ((channelTalkers st cfg channel).prune now).last_seen
      sender now hnd0
  by_cases hact :
      ((channelTalkers st cfg channel).prune now).is_active sender now = true
  · have hres : (allow_talker cfg env st channel sender now).2 =
        { st with talkers := (updateAssoc st.talkers channel
            (((channelTalkers st cfg channel).prune now).touch sender now)) } := by
      simp only [allow_talker, ← channelTalkers_def]
      rw [if_pos hact]
    rw [hres]
    have hget : channelTalkers
        { st with talkers := (updateAssoc st.talkers channel
            (((channelTalkers st cfg channel).prune now).touch sender now)) }
        cfg channel =
        ((channelTalkers st cfg channel).prune now).touch sender now := by
      simp [channelTalkers, lookup_updateAssoc_self]
    rw [hget]
    obtain ⟨ts, hlk, hts⟩ := is_active_lookup hact
    rw [prune_window] at hts
    refine ⟨?_, htouch_nodup, htouch_mem⟩
    rw [TalkerSet.active_count_eq_freshCount]
    exact le_trans
      (freshCount_updateAssoc_active
        ((channelTalkers st cfg channel).prune now).last_seen sender now
        (channelTalkers st cfg channel).window hnd0 ts hlk hts)
      hc0
  · by_cases hcap : max (env.max_talkers channel) 1 ≤
        ((channelTalkers st cfg channel).prune now).active_count now
    · have hres : (allow_talker cfg env st channel sender now).2 =
          { st with talkers := (updateAssoc st.talkers channel
              ((channelTalkers st cfg channel).prune now)) } := by
        simp only [allow_talker, ← channelTalkers_def]
        rw [if_neg hact, if_pos hcap]
      rw [hres]
      have hget : channelTalkers
          { st with talkers := (updateAssoc st.talkers channel
              ((channelTalkers st cfg channel).prune now)) } cfg channel =
          (channelTalkers st cfg channel).prune now := by
        simp [channelTalkers, lookup_updateAssoc_self]
      rw [hget]
      refine ⟨?_, hnd0, hts0⟩
      rw [TalkerSet.active_count_eq_freshCount, prune_window]
      exact hc0
    · have hres : (allow_talker cfg env st channel sender now).2 =
          { st with talkers := (updateAssoc st.talkers channel
              (((channelTalkers st cfg channel).prune now).touch sender now)) } := by
        simp only [allow_talker, ← channelTalkers_def]
        rw [if_neg hact, if_neg hcap]
      rw [hres]
      have hget : channelTalkers
          { st with talkers := (updateAssoc st.talkers channel
              (((channelTalkers st cfg channel).prune now).touch sender now)) }
          cfg channel =
          ((channelTalkers st cfg channel).prune now).touch sender now := by
        simp [channelTalkers, lookup_updateAssoc_self]
      rw [hget]
      refine ⟨?_, htouch_nodup, htouch_mem⟩
      rw [TalkerSet.active_count_eq_freshCount]
      have hle := freshCount_updateAssoc_le
        ((channelTalkers st cfg channel).prune now).last_seen sender now
        ((channelTalkers st cfg channel).prune now).window hnd0
      rw [TalkerSet.active_count_eq_freshCount] at hcap
      rw [prune_window] at hle hcap
      rw [show (((channelTalkers st cfg channel).prune now).touch sender
        now).last_seen = updateAssoc
        ((channelTalkers st cfg channel).prune now).last_seen sender now from rfl]
      rw [show (((channelTalkers st cfg channel).prune now).touch sender
        now).window = ((channelTalkers st cfg channel).prune now).window from rfl,
        prune_window]
      omega

/-- A trace of talker-gate calls on one channel: fold `allow_talker` over a
list of `(monotonic instant, sender)` events. -/
def run_talker (cfg : VoiceForwarderConfig) (env : ForwarderEnv)
    (channel : ChannelId) : ForwarderState → List (Nat × UserId) → ForwarderState
  | st, [] => st
  | st, (t, u) :: rest =>
      run_talker cfg env channel (allow_talker cfg env st channel u t).2 rest

/-- The talker-gate invariant is preserved along any time-ordered trace. -/
theorem run_talker_inv (cfg : VoiceForwarderConfig) (env : ForwarderEnv)
    (channel : ChannelId) (events : List (Nat × UserId)) :
    ∀ (st : ForwarderState) (t now : Nat),
    TalkerInv (channelTalkers st cfg channel) t (max (env.max_talkers channel) 1) →
    List.Pairwise (fun a b => a.1 ≤ b.1) events →
    (∀ e ∈ events, t ≤ e.1) → (∀ e ∈ events, e.1 ≤ now) → t ≤ now →
    TalkerInv (channelTalkers (run_talker cfg env channel st events) cfg channel)
      now (max (env.max_talkers channel) 1) := by
  induction events with
  | nil =>
    intro st t now hinv _ _ _ htn
    simpa [run_talker] using hinv.mono htn
  | cons e rest ih =>
    intro st t now hinv hord hlo hhi htn
    obtain ⟨t₀, u⟩ := e
    simp only [run_talker]
    have ht0 : t ≤ t₀ := hlo (t₀, u) (by simp)
    have hstep := allow_talker_preserves_inv cfg env st channel u t₀ (hinv.mono ht0)
    exact ih _ t₀ now hstep (List.pairwise_cons.mp hord).2
      (fun e he => (List.pairwise_cons.mp hord).1 e he)
      (fun e he => hhi e (by simp [he]))
      (hhi (t₀, u) (by simp))

/-- C5 (amended): for any channel, any time-ordered trace of talker-gate
calls, and any instant `now` at or after the trace, the number of senders
counted active within the last `talker_activity_window` is at most
`max (max_talkers channel) 1` — the gate clamps the configured ceiling with
`.max(1)`, so a `max_talkers` of zero still admits one talker (the unamended
bound `max_talkers channel` itself is refuted below). -/
theorem talker_cap (cfg : VoiceForwarderConfig) (env : ForwarderEnv)
    (channel : ChannelId) (events : List (Nat × UserId)) (now : Nat)
    (hord : List.Pairwise (fun a b => a.1 ≤ b.1) events)
    (hhi : ∀ e ∈ events, e.1 ≤ now) :
    (channelTalkers (run_talker cfg env channel ForwarderState.empty events)
      cfg channel).active_count now ≤ max (env.max_talkers channel) 1 := by
  have hempty : TalkerInv (channelTalkers ForwarderState.empty cfg channel) 0
      (max (env.max_talkers channel) 1) := by
    refine ⟨Nat.zero_le _, ?_, ?_⟩
    · exact List.nodup_nil
    · intro p hp
      exact absurd hp (List.not_mem_nil p)
  exact (run_talker_inv cfg env channel events ForwarderState.empty 0 now hempty
    hord (fun e _ => Nat.zero_le _) hhi (Nat.zero_le _)).1

/-- C5 counterexample: with `max_talkers(channel) = 0` the gate still admits
a talker — `allow_talker` returns `true` for a fresh sender and the active
count right after is 1, exceeding the configured ceiling of 0.  The claim's
"including when max_talkers(channel) is zero" is false. -/
theorem talker_gate_ignores_zero_max :
    let env : ForwarderEnv :=
      { resolve_channel_for_sender := fun _ _ => some 3, list_members := fun _ => [7],
        is_muted := fun _ _ => false, max_talkers := fun _ => 0,
        has_session := fun _ => false }
    env.max_talkers 3 = 0 ∧
    (allow_talker VoiceForwarderConfig.default env ForwarderState.empty 3 7 100).1
      = true ∧
    (channelTalkers
      (allow_talker VoiceForwarderConfig.default env ForwarderState.empty 3 7 100).2
      VoiceForwarderConfig.default 3).active_count 100 = 1 := by
  exact ⟨rfl, by decide, by decide⟩

/-- C5 witness: a concrete time-ordered three-event trace on channel 3 with
`max_talkers = 1` stays within the amended bound. -/
theorem talker_cap_witness :
    let env : ForwarderEnv :=
      { resolve_channel_for_sender := fun _ _ => some 3, list_members := fun _ => [7],
        is_muted := fun _ _ => false, max_talkers := fun _ => 1,
        has_session := fun _ => false }
    List.Pairwise (fun a b : Nat × UserId => a.1 ≤ b.1) [(10, 7), (20, 8), (30, 7)] ∧
    (∀ e ∈ ([(10, 7), (20, 8), (30, 7)] : List (Nat × UserId)), e.1 ≤ 40) ∧
    (channelTalkers
      (run_talker VoiceForwarderConfig.default env 3 ForwarderState.empty
        [(10, 7), (20, 8), (30, 7)])
      VoiceForwarderConfig.default 3).active_count 40 ≤ max (env.max_talkers 3) 1 := by
  intro env
  exact ⟨by decide, by decide,
    talker_cap VoiceForwarderConfig.default env 3 [(10, 7), (20, 8), (30, 7)] 40
      (by decide) (by decide)⟩
